import Mathlib

/-!
Verification development for the sigma-wasm repository: a shallow embedding of
the WASM module acquisition and validation pipeline
(src/src/routes/hello-wasm.ts) and of the build-time import-path rewriting
plugins (src/vite.config.ts), together with theorems settling the frozen
claims about them.
-/

set_option maxRecDepth 10000
set_option autoImplicit false

/-! ## A small model of the JavaScript values the loader manipulates.

Primitive values carry enough structure for the checks the source performs:
`typeof x === "function"`, `x instanceof WebAssembly.Memory`, truthiness.
An export bag is an object: an ordered own-property list.  (Bags whose members
are themselves objects never occur in the checked positions.)
-/

inductive JsPrim where
  | undefined
  | vnull
  | boolV (b : Bool)
  | numV (n : Int)
  | strV (s : String)
  | funcV (id : Nat)
  | memV (id : Nat)
deriving DecidableEq, Repr

inductive JsVal where
  | prim (p : JsPrim)
  | obj (fields : List (String × JsPrim))
deriving DecidableEq, Repr

/-- Model of the check `typeof v === "function"`. -/
def typeofFunction : JsPrim → Bool
  | .funcV _ => true
  | _ => false

/-- Model of the check `v instanceof WebAssembly.Memory`. -/
def isWasmMemory : JsPrim → Bool
  | .memV _ => true
  | _ => false

/-- Model of JavaScript truthiness (`!v` is the negation of this). -/
def jsTruthy : JsPrim → Bool
  | .undefined => false
  | .vnull => false
  | .boolV b => b
  | .numV n => decide (n ≠ 0)
  | .strV s => decide (s ≠ "")
  | .funcV _ => true
  | .memV _ => true

/-- Model of the guard `typeof v === "object" && v !== null`: the own-property
list of an object value.  A `WebAssembly.Memory` instance is an object with no
relevant own properties. -/
def objFields : JsVal → Option (List (String × JsPrim))
  | .obj fields => some fields
  | .prim (.memV _) => some []
  | _ => none

/-- Model of `Object.getOwnPropertyDescriptor(obj, key)?.value`, which yields
`undefined` when the property is absent. -/
def getProp (fields : List (String × JsPrim)) (key : String) : JsPrim :=
  match fields.find? (fun kv => kv.1 == key) with
  | some kv => kv.2
  | none => .undefined

/-- Model of `Object.keys(obj)`. -/
def objKeys (fields : List (String × JsPrim)) : List String :=
  fields.map (fun kv => kv.1)

/-! ## The module-level export cell of src/src/routes/hello-wasm.ts.

`wasmModuleExports` (lines 26-39) holds, once the lazy import has succeeded,
the twelve exported members the route uses.  The TypeScript `default` key is
spelled `defaultFn` here. -/

structure WasmHelloExports where
  defaultFn : JsPrim
  wasm_init : JsPrim
  get_counter : JsPrim
  increment_counter : JsPrim
  get_message : JsPrim
  set_message : JsPrim
  get_fave_car : JsPrim
  set_fave_car : JsPrim
  get_fave_team : JsPrim
  set_fave_team : JsPrim
  get_decimal : JsPrim
  set_decimal : JsPrim
deriving DecidableEq, Repr

/-- Extraction and validation of one named export inside `getInitWasm`
(lines 105-140 of hello-wasm.ts): the member must be present and be a
function, otherwise the function throws naming the missing export and the
available keys.  (Message text is modelled without the quotation marks the
source puts around the export name.) -/
def checkModuleExport (fields : List (String × JsPrim)) (allKeys : String)
    (key : String) : Except String JsPrim :=
  let v := getProp fields key
  if typeofFunction v then .ok v
  else .error ("Module missing " ++ key ++ " export. Available: " ++ allKeys)

/-- Model of the validation part of `getInitWasm` (hello-wasm.ts lines 57-221):
the freshly imported module value is checked to be an object and each of the
twelve required exports is checked in order, throwing at the first failure;
on success the module-level export record is built.  (The second round of
`typeof` re-checks on lines 157-192 can never fail after the first round and
is collapsed; the unused `moduleKeys` accumulation of lines 62-98 is dead code
and omitted.) -/
def importValidate (m : JsVal) : Except String WasmHelloExports :=
  match objFields m with
  | none => .error "Imported module is not an object"
  | some fields =>
    let allKeys := String.intercalate ", " (objKeys fields)
    do
      let d ← checkModuleExport fields allKeys "default"
      let f1 ← checkModuleExport fields allKeys "wasm_init"
      let f2 ← checkModuleExport fields allKeys "get_counter"
      let f3 ← checkModuleExport fields allKeys "increment_counter"
      let f4 ← checkModuleExport fields allKeys "get_message"
      let f5 ← checkModuleExport fields allKeys "set_message"
      let f6 ← checkModuleExport fields allKeys "get_fave_car"
      let f7 ← checkModuleExport fields allKeys "set_fave_car"
      let f8 ← checkModuleExport fields allKeys "get_fave_team"
      let f9 ← checkModuleExport fields allKeys "set_fave_team"
      let f10 ← checkModuleExport fields allKeys "get_decimal"
      let f11 ← checkModuleExport fields allKeys "set_decimal"
      .ok ⟨d, f1, f2, f3, f4, f5, f6, f7, f8, f9, f10, f11⟩

/-! ## The loader state machine (`getInitWasm`, hello-wasm.ts lines 50-228).

The function body has exactly one suspension point, the `await import(...)` on
line 54; everything after it up to the `return` is synchronous.  We model a
process as a set of tasks each executing `getInitWasm`, plus the shared
module-level cell `wasmModuleExports` and three effect counters: how many
times the dynamic import was issued, how many times the per-export validation
block ran, and how many times `wasmModuleExports.default()` was invoked. -/

structure LoaderState where
  gexp : Option WasmHelloExports
  importCount : Nat
  checksCount : Nat
  defaultCount : Nat
deriving DecidableEq, Repr

/-- Initial loader state: `wasmModuleExports` is `null`, nothing has run. -/
def initLoaderState : LoaderState := ⟨none, 0, 0, 0⟩

deriving instance DecidableEq for Except

/-- Program counter of one task executing `getInitWasm`: at entry, resumed
after the awaited import, or finished with the function result. -/
inductive TaskPC where
  | tstart
  | tresume
  | tdone (r : Except String JsVal)
deriving DecidableEq, Repr

/-- One atomic step of a task running `getInitWasm`.  `module` is the value
the dynamic import resolves to; `initResult` is the value returned by the
call `wasmModuleExports.default()` on line 226.
At `tstart`: if the cell is already populated the whole remaining body is
synchronous (skip the import and the checks, invoke `default()`, return);
otherwise the task issues the import and suspends.
At `tresume`: the validation block runs atomically, on success overwriting the
cell, then `default()` is invoked and the task returns. -/
def taskStep (module initResult : JsVal) (st : LoaderState) :
    TaskPC → LoaderState × TaskPC
  | .tstart =>
    match st.gexp with
    | some _ => ({ st with defaultCount := st.defaultCount + 1 },
                 .tdone (.ok initResult))
    | none => ({ st with importCount := st.importCount + 1 }, .tresume)
  | .tresume =>
    match importValidate module with
    | .error e => ({ st with checksCount := st.checksCount + 1 },
                   .tdone (.error e))
    | .ok mex => ({ st with gexp := some mex,
                            checksCount := st.checksCount + 1,
                            defaultCount := st.defaultCount + 1 },
                  .tdone (.ok initResult))
  | .tdone r => (st, .tdone r)

/-- One full sequential call of `getInitWasm`: run the task to completion with
no interleaving (at most two atomic steps). -/
def getInitWasmCall (module initResult : JsVal) (st : LoaderState) :
    LoaderState × Except String JsVal :=
  match taskStep module initResult st .tstart with
  | (st1, .tdone r) => (st1, r)
  | (st1, pc1) =>
    match taskStep module initResult st1 pc1 with
    | (st2, .tdone r) => (st2, r)
    | (st2, _) => (st2, .error "stuck")

/-- Sequential acquisition: `n` calls of `getInitWasm`, each issued only after
the previous one completed, collecting the call results. -/
def seqAcquire (module initResult : JsVal) :
    Nat → LoaderState → LoaderState × List (Except String JsVal)
  | 0, st => (st, [])
  | n + 1, st =>
    let (st1, r) := getInitWasmCall module initResult st
    let (st2, rs) := seqAcquire module initResult n st1
    (st2, r :: rs)

/-- Interleaved execution: a schedule is a list of task indices; at each
schedule entry the named task performs one atomic step (out-of-range indices
do nothing). -/
def schedRun (module initResult : JsVal) :
    List Nat → LoaderState × List TaskPC → LoaderState × List TaskPC
  | [], s => s
  | i :: rest, (st, tasks) =>
    match tasks[i]? with
    | none => schedRun module initResult rest (st, tasks)
    | some pc =>
      let (st1, pc1) := taskStep module initResult st pc
      schedRun module initResult rest (st1, tasks.set i pc1)

/-! ## The export validator (`validateHelloModule`, hello-wasm.ts lines 256-348).

Its inputs at the source level are the `exports` argument (the raw bag
produced by the module init call), the module-level cell `wasmModuleExports`,
and the external helper `validateWasmModule` from src/wasm/loader (not part of
this repository sample), modelled as an opaque boolean predicate parameter. -/

/-- Violation entries pushed for the eleven function exports checked on the
module-level cell (hello-wasm.ts lines 284-316), in source order. -/
def helloFnChecks (g : WasmHelloExports) : List String :=
  (if typeofFunction g.wasm_init then [] else ["wasm_init (function)"]) ++
  (if typeofFunction g.get_counter then [] else ["get_counter (function)"]) ++
  (if typeofFunction g.increment_counter then [] else ["increment_counter (function)"]) ++
  (if typeofFunction g.get_message then [] else ["get_message (function)"]) ++
  (if typeofFunction g.set_message then [] else ["set_message (function)"]) ++
  (if typeofFunction g.get_fave_car then [] else ["get_fave_car (function)"]) ++
  (if typeofFunction g.set_fave_car then [] else ["set_fave_car (function)"]) ++
  (if typeofFunction g.get_fave_team then [] else ["get_fave_team (function)"]) ++
  (if typeofFunction g.set_fave_team then [] else ["set_fave_team (function)"]) ++
  (if typeofFunction g.get_decimal then [] else ["get_decimal (function)"]) ++
  (if typeofFunction g.set_decimal then [] else ["set_decimal (function)"])

/-- Complete violation list `missingExports` accumulated by
`validateHelloModule` (lines 272-317): first the structural memory check on
the bag, then either the null-cell entry or the eleven function checks on the
cell. -/
def helloMissingList (g : Option WasmHelloExports)
    (fields : List (String × JsPrim)) : List String :=
  (let memoryValue := getProp fields "memory"
   if !(jsTruthy memoryValue) || !(isWasmMemory memoryValue) then
     ["memory (WebAssembly.Memory)"]
   else []) ++
  (match g with
   | none => ["module exports (wasmModuleExports is null)"]
   | some m => helloFnChecks m)

/-- Narrowed handle type built on success (type `WasmModuleHello`). -/
structure WasmModuleHello where
  memory : JsPrim
  wasm_init : JsPrim
  get_counter : JsPrim
  increment_counter : JsPrim
  get_message : JsPrim
  set_message : JsPrim
  get_fave_car : JsPrim
  set_fave_car : JsPrim
  get_fave_team : JsPrim
  set_fave_team : JsPrim
  get_decimal : JsPrim
  set_decimal : JsPrim
deriving DecidableEq, Repr

/-- Failure message thrown on line 320 when violations were collected. -/
def helloMissingMsg (missing : List String) (exportKeys : List String) : String :=
  "WASM module missing required exports: " ++ String.intercalate ", " missing ++
  ". Available exports from init result: " ++ String.intercalate ", " exportKeys

/-- Model of `validateHelloModule` (hello-wasm.ts lines 256-348).
`vwm` is the external `validateWasmModule` helper; `g` is the module-level
cell `wasmModuleExports`; `exports` is the raw bag argument.  `Except.error`
models the `throw`, `.ok none` the `return null` paths, `.ok (some h)` the
validated handle. -/
def validateHelloModule (vwm : JsVal → Bool) (g : Option WasmHelloExports)
    (exports : JsVal) : Except String (Option WasmModuleHello) :=
  if !(vwm exports) then .ok none
  else
    match objFields exports with
    | none => .ok none
    | some fields =>
      let exportKeys := objKeys fields
      let missingExports := helloMissingList g fields
      if missingExports.isEmpty then
        let memory := getProp fields "memory"
        if isWasmMemory memory then
          match g with
          | none => .ok none
          | some m =>
            .ok (some ⟨memory, m.wasm_init, m.get_counter, m.increment_counter,
                       m.get_message, m.set_message, m.get_fave_car,
                       m.set_fave_car, m.get_fave_team, m.set_fave_team,
                       m.get_decimal, m.set_decimal⟩)
        else .ok none
      else .error (helloMissingMsg missingExports exportKeys)

/-! ## Concrete values used by witnesses and counterexamples. -/

/-- Export cell in the state reached after a successful import: every member
is a function. -/
def goodCell : WasmHelloExports :=
  ⟨.funcV 0, .funcV 1, .funcV 2, .funcV 3, .funcV 4, .funcV 5, .funcV 6,
   .funcV 7, .funcV 8, .funcV 9, .funcV 10, .funcV 11⟩

/-- A module value on which every check of `getInitWasm` succeeds. -/
def goodModule : JsVal :=
  .obj [("default", .funcV 0), ("wasm_init", .funcV 1),
        ("get_counter", .funcV 2), ("increment_counter", .funcV 3),
        ("get_message", .funcV 4), ("set_message", .funcV 5),
        ("get_fave_car", .funcV 6), ("set_fave_car", .funcV 7),
        ("get_fave_team", .funcV 8), ("set_fave_team", .funcV 9),
        ("get_decimal", .funcV 10), ("set_decimal", .funcV 11)]

/-- The export record `importValidate` builds from `goodModule`. -/
def goodModuleCell : WasmHelloExports :=
  ⟨.funcV 0, .funcV 1, .funcV 2, .funcV 3, .funcV 4, .funcV 5, .funcV 6,
   .funcV 7, .funcV 8, .funcV 9, .funcV 10, .funcV 11⟩

/-- An external-check stub that accepts every bag. -/
def vwmAccept : JsVal → Bool := fun _ => true

/-- A raw bag exposing only a valid linear memory. -/
def memOnlyBag : JsVal := .obj [("memory", .memV 0)]

/-- An empty raw bag: no memory member, no function members. -/
def emptyBag : JsVal := .obj []

/-! ## The build-time import rewriters (src/vite.config.ts).

Generated chunk text is modelled as `List Char`.  The two plugins
`rewriteWasmImports` (lines 200-256) and `removeVitePreload` (lines 111-152)
replace regex matches globally; each concrete regex is embedded as a
deterministic matcher (the patterns involved admit no observable
backtracking), and global `String.replace` as a left-to-right scan that either
copies a character or emits a replacement and continues after the match. -/

/-- Double-quote character. -/
def dqChar : Char := Char.ofNat 34

/-- Single-quote character. -/
def sqChar : Char := Char.ofNat 39

/-- Character class of the quote characters excluded by the regex `[^'"]`. -/
def isQuoteChar (c : Char) : Bool := c == dqChar || c == sqChar

/-- ASCII members of the JavaScript regex class `\s`. -/
def isWsChar (c : Char) : Bool :=
  c == ' ' || c == Char.ofNat 9 || c == Char.ofNat 10 || c == Char.ofNat 13 ||
  c == Char.ofNat 11 || c == Char.ofNat 12

/-- Consume an exact literal at the head of the text. -/
def stripLit : List Char → List Char → Option (List Char)
  | [], s => some s
  | _ :: _, [] => none
  | a :: l, c :: s => if c == a then stripLit l s else none

/-- Consume one exact character at the head of the text. -/
def stripCh (a : Char) : List Char → Option (List Char)
  | [] => none
  | c :: s => if c == a then some s else none

/-- Consume the longest whitespace run (`\s*`). -/
def dropWsL : List Char → List Char
  | [] => []
  | c :: s => if isWsChar c then dropWsL s else c :: s

/-- Split off the longest run matching `[^'"]*`. -/
def takeNonQuote : List Char → List Char × List Char
  | [] => ([], [])
  | c :: s =>
    if isQuoteChar c then ([], c :: s)
    else
      let (a, b) := takeNonQuote s
      (c :: a, b)

/-- Split off the longest run matching `[^)]*`. -/
def takeNoParen : List Char → List Char × List Char
  | [] => ([], [])
  | c :: s =>
    if c == ')' then ([], c :: s)
    else
      let (a, b) := takeNoParen s
      (c :: a, b)

/-- Consume one or more `../` segments (the regex `(\.\.\/)+`; greediness is
not observable because a shorter parse leaves `../` where `pkg/` is
required). -/
def dropDots : List Char → Option (List Char)
  | '.' :: '.' :: '/' :: rest =>
    match dropDots rest with
    | some r => some r
    | none => some rest
  | _ => none

/-- Literal `import`. -/
def impLit : List Char := ['i', 'm', 'p', 'o', 'r', 't']

/-- Literal `pkg/`. -/
def pkgRelLit : List Char := ['p', 'k', 'g', '/']

/-- Literal `/pkg/`. -/
def pkgAbsLit : List Char := ['/', 'p', 'k', 'g', '/']

/-- Literal `../`. -/
def dotsLit : List Char := ['.', '.', '/']

/-- Literal `__vitePreload`. -/
def vpLit : List Char :=
  ['_', '_', 'v', 'i', 't', 'e', 'P', 'r', 'e', 'l', 'o', 'a', 'd']

/-- Literal `__`: two consecutive underscores, the first two characters of
`__vitePreload`. -/
def uuLit : List Char := ['_', '_']

/-- Replacement text produced by every rule: a direct dynamic import of the
absolute path, built exactly as the sources interpolate it. -/
def dirImp (q : Char) (p : List Char) : List Char :=
  impLit ++ '(' :: q :: (pkgAbsLit ++ p ++ [q, ')'])

/-- Consume the opening quote captured by `(['"])`. -/
def takeQuote : List Char → Option (Char × List Char)
  | [] => none
  | c :: s => if isQuoteChar c then some (c, s) else none

/-- Consume the closing backreference and parenthesis `\1\)`. -/
def stripQuoteParen (q : Char) : List Char → Option (List Char)
  | q2 :: c :: s7 => if q2 == q && c == ')' then some s7 else none
  | _ => none

/-- Common core of the two relative-import regexes of `rewriteWasmImports`:
`import\s*\((['"]) DOTS pkg\/([^'"]+)\1\)` where `DOTS` is the
parent-directory part handled by the `dots` parameter.  On a match, returns
the replacement and the rest of the text. -/
def tryMatchRelCore (dots : List Char → Option (List Char)) (s : List Char) :
    Option (List Char × List Char) := do
  let s1 ← stripLit impLit s
  let s2 ← stripCh '(' (dropWsL s1)
  let qs ← takeQuote s2
  let s4 ← dots qs.2
  let s5 ← stripLit pkgRelLit s4
  if ((takeNonQuote s5).1).isEmpty then none
  else do
    let s7 ← stripQuoteParen qs.1 (takeNonQuote s5).2
    some (dirImp qs.1 (takeNonQuote s5).1, s7)

/-- Pattern 1 of `rewriteWasmImports` (vite.config.ts line 211):
`import\s*\((['"])(\.\.\/)+pkg\/([^'"]+)\1\)`. -/
def tryMatchRel : List Char → Option (List Char × List Char) :=
  tryMatchRelCore dropDots

/-- Pattern 2 of `rewriteWasmImports` (vite.config.ts line 219):
`import\s*\((['"])\.\.\/pkg\/([^'"]+)\1\)`. -/
def tryMatchRel2 : List Char → Option (List Char × List Char) :=
  tryMatchRelCore (stripLit dotsLit)

/-- Common head of the two `removeVitePreload` regexes:
`__vitePreload\s*\(\s*\(\)\s*=>\s*import\s*\((['"])\/pkg\/([^'"]+)\1\)`.
Returns the quote, the captured path and the rest after the closing paren of
the wrapped import. -/
def tryMatchPreHead (s : List Char) : Option (Char × List Char × List Char) := do
  let s1 ← stripLit vpLit s
  let s2 ← stripCh '(' (dropWsL s1)
  let s3 ← stripCh '(' (dropWsL s2)
  let s4 ← stripCh ')' s3
  let s5 ← stripCh '=' (dropWsL s4)
  let s6 ← stripCh '>' s5
  let s7 ← stripLit impLit (dropWsL s6)
  let s8 ← stripCh '(' (dropWsL s7)
  let qs ← takeQuote s8
  let s10 ← stripLit pkgAbsLit qs.2
  if ((takeNonQuote s10).1).isEmpty then none
  else do
    let s12 ← stripQuoteParen qs.1 (takeNonQuote s10).2
    some (qs.1, (takeNonQuote s10).1, s12)

/-- Pattern 1 of `removeVitePreload` (vite.config.ts line 133): the wrapper
with a literal empty dependency array, tail `\s*,\s*\[\]\s*\)`. -/
def tryMatchPre1 (s : List Char) : Option (List Char × List Char) := do
  let qps ← tryMatchPreHead s
  let s13 ← stripCh ',' (dropWsL qps.2.2)
  let s14 ← stripCh '[' (dropWsL s13)
  let s15 ← stripCh ']' s14
  let s16 ← stripCh ')' (dropWsL s15)
  some (dirImp qps.1 qps.2.1, s16)

/-- Pattern 2 of `removeVitePreload` (vite.config.ts line 141): the wrapper
with an arbitrary trailing argument, tail `\s*,\s*[^)]+\)` (the `\s*[^)]+`
combination is exactly a nonempty run of non-parenthesis characters). -/
def tryMatchPre2 (s : List Char) : Option (List Char × List Char) := do
  let qps ← tryMatchPreHead s
  let s13 ← stripCh ',' (dropWsL qps.2.2)
  if ((takeNoParen s13).1).isEmpty then none
  else do
    let s15 ← stripCh ')' (takeNoParen s13).2
    some (dirImp qps.1 qps.2.1, s15)

/-- Fuelled global-replace scan: at each position, if the matcher fires, emit
the replacement and continue after the consumed text, otherwise copy one
character.  Every matcher consumes at least one character, so fuel equal to
the length of the text never runs out. -/
def scanGAux (m : List Char → Option (List Char × List Char)) :
    Nat → List Char → List Char
  | 0, s => s
  | _ + 1, [] => []
  | fuel + 1, c :: rest =>
    match m (c :: rest) with
    | some (r, t) => r ++ scanGAux m fuel t
    | none => c :: scanGAux m fuel rest

/-- Global replace for one pattern (`String.prototype.replace` with the `g`
flag). -/
def scanG (m : List Char → Option (List Char × List Char))
    (s : List Char) : List Char :=
  scanGAux m s.length s

/-- Prefix test used by `String.prototype.includes`. -/
def startsWithL : List Char → List Char → Bool
  | [], _ => true
  | _ :: _, [] => false
  | a :: l, c :: s => c == a && startsWithL l s

/-- Model of `code.includes(pat)`. -/
def includesL (pat : List Char) : List Char → Bool
  | [] => startsWithL pat []
  | s@(_ :: rest) => startsWithL pat s || includesL pat rest

/-- Net effect of `rewriteWasmImports`' `renderChunk` hook on a chunk text
(vite.config.ts lines 203-229): pattern 1 replaced globally, then pattern 2
on the result (a `null` return leaves the chunk unchanged, which coincides
with returning the scanned text). -/
def rewriteWasmImportsChunk (code : List Char) : List Char :=
  scanG tryMatchRel2 (scanG tryMatchRel code)

/-- Net effect of `removeVitePreload`'s `renderChunk` hook on a chunk text
(vite.config.ts lines 115-152): guarded by `includes("/pkg/")` and
`includes("__vitePreload")`, then pattern 1 and pattern 2 replaced globally
(the zero-replacement and unchanged-code early returns leave the chunk text
identical to the scan result). -/
def removeVitePreloadChunk (code : List Char) : List Char :=
  if includesL pkgAbsLit code && includesL vpLit code then
    scanG tryMatchPre2 (scanG tryMatchPre1 code)
  else code

/-- The full Import-Path Rewriter on one generated chunk: Vite runs the
normal-phase `rewriteWasmImports` hook before the `post`-enforced
`removeVitePreload` hook. -/
def wasmImportRewriter (code : List Char) : List Char :=
  removeVitePreloadChunk (rewriteWasmImportsChunk code)

/-! ## Rendered artifact shapes quantified over by the rewriter claims. -/

/-- Parent-directory run: `k` copies of `../`. -/
def dotsRep : Nat → List Char
  | 0 => []
  | k + 1 => dotsLit ++ dotsRep k

/-- A direct dynamic import of a relative `pkg/` path with `k + 1`
parent-directory segments. -/
def relImp (q : Char) (k : Nat) (p : List Char) : List Char :=
  impLit ++ '(' :: q :: (dotsRep (k + 1) ++ pkgRelLit ++ p ++ [q, ')'])

/-- Wrapper call head `__vitePreload(()=>`. -/
def wrapHead : List Char := vpLit ++ ['(', '(', ')', '=', '>']

/-- Recognized wrapped-preload shape with a literal empty dependency array:
`__vitePreload(()=>import(<q>/pkg/<p><q>),[])`. -/
def shape1 (q : Char) (p : List Char) : List Char :=
  wrapHead ++ dirImp q p ++ [',', '[', ']', ')']

/-- Recognized wrapped-preload shape with an arbitrary trailing argument:
`__vitePreload(()=>import(<q>/pkg/<p><q>),<arg>)`. -/
def shape2 (q : Char) (p : List Char) (arg : List Char) : List Char :=
  wrapHead ++ dirImp q p ++ ',' :: (arg ++ [')'])

/-- Wrapper call with no trailing argument at all:
`__vitePreload(()=>import(<q>/pkg/<p><q>))`. -/
def shape0 (q : Char) (p : List Char) : List Char :=
  wrapHead ++ dirImp q p ++ [')']

/-- Path `wasm_astar/wasm_astar.js` from the specification scenario. -/
def astarPath : List Char :=
  ['w', 'a', 's', 'm', '_', 'a', 's', 't', 'a', 'r', '/',
   'w', 'a', 's', 'm', '_', 'a', 's', 't', 'a', 'r', '.', 'j', 's']

/-- Nested wrapper artifact
`__vitePreload(()=>__vitePreload(()=>import("/pkg/x"),a),b)` used to refute
idempotence of the Rewriter. -/
def nestedPreloadArtifact : List Char :=
  wrapHead ++ shape2 dqChar ['x'] ['a'] ++ [',', 'b', ')']

/-! ## Build-time export verification (`validateWasmModuleExports`,
vite.config.ts lines 259-294). -/

/-- Literal `export`. -/
def exportKwLit : List Char := ['e', 'x', 'p', 'o', 'r', 't']

/-- Literal `function`. -/
def functionKwLit : List Char := ['f', 'u', 'n', 'c', 't', 'i', 'o', 'n']

/-- Literal `const`. -/
def constKwLit : List Char := ['c', 'o', 'n', 's', 't']

/-- Literal `let`. -/
def letKwLit : List Char := ['l', 'e', 't']

/-- Literal `var`. -/
def varKwLit : List Char := ['v', 'a', 'r']

/-- Whitespace class `\s+`: at least one whitespace character. -/
def dropWs1 : List Char → Option (List Char)
  | c :: r => if isWsChar c then some (dropWsL r) else none
  | [] => none

/-- Declaration-keyword alternation `(function|const|let|var)`; the
alternatives start with distinct letters, so at most one can apply and
backtracking is not observable. -/
def tryDeclKw (s : List Char) : Option (List Char) :=
  stripLit functionKwLit s <|> stripLit constKwLit s <|>
  stripLit letKwLit s <|> stripLit varKwLit s

/-- Match of the per-export regex
`export\s+(function|const|let|var)\s+<name>\s*[=(]` at the head of the
text. -/
def tryExportDecl (name : List Char) (s : List Char) : Bool :=
  (do
    let s1 ← stripLit exportKwLit s
    let s2 ← dropWs1 s1
    let s3 ← tryDeclKw s2
    let s4 ← dropWs1 s3
    let s5 ← stripLit name s4
    match dropWsL s5 with
    | c :: _ => if c == '=' || c == '(' then some () else none
    | [] => none).isSome

/-- Model of `exportPattern.test(content)`: the per-export regex matches at
some position of the file content.  (A fresh regex object is constructed per
name, so `lastIndex` statefulness does not arise.) -/
def hasExportDecl (name : List Char) : List Char → Bool
  | [] => tryExportDecl name []
  | s@(_ :: rest) => tryExportDecl name s || hasExportDecl name rest

/-- The `expectedExports` table (vite.config.ts lines 263-269), verbatim. -/
def expectedExports : List (String × List String) :=
  [("wasm_agent_tools", ["calculate", "process_text", "get_stats"]),
   ("wasm_preprocess_image_captioning",
    ["preprocess_image", "preprocess_image_crop", "apply_contrast",
     "apply_cinematic_filter", "get_preprocess_stats", "set_contrast",
     "set_cinematic", "get_contrast", "get_cinematic", "apply_sepia_filter",
     "set_sepia"]),
   ("wasm_preprocess",
    ["preprocess_image", "preprocess_image_crop",
     "preprocess_image_for_smolvlm", "apply_contrast",
     "apply_cinematic_filter", "get_preprocess_stats", "set_contrast",
     "set_cinematic", "get_contrast", "get_cinematic"]),
   ("wasm_preprocess_256m",
    ["preprocess_image", "preprocess_image_crop", "apply_contrast",
     "apply_cinematic_filter", "get_preprocess_stats", "set_contrast",
     "set_cinematic", "get_contrast", "get_cinematic"]),
   ("wasm_astar", ["wasm_init", "tick", "key_down", "key_up", "mouse_move"])]

/-- Contract lookup `expectedExports[moduleName]` (lines 271-275): `none`
models the "module not in our list, skip validation" outcome. -/
def lookupExpected (moduleName : String) : Option (List String) :=
  match expectedExports.find? (fun kv => kv.1 == moduleName) with
  | some kv => some kv.2
  | none => none

/-- Diagnostic raised when contracted exports are missing (lines 286-291). -/
def buildMissingMsg (moduleName : String) (missing : List String)
    (filePath : String) : String :=
  "Module " ++ moduleName ++ " is missing required exports: " ++
  String.intercalate ", " missing ++ ". File: " ++ filePath

/-- Model of `validateWasmModuleExports` (vite.config.ts lines 259-294):
look up the contract, return normally when there is none, otherwise collect
every contracted export whose declaration is textually absent from the copied
glue code and throw one error naming them all. -/
def validateWasmModuleExports (filePath : String) (content : List Char)
    (moduleName : String) : Except String Unit :=
  match lookupExpected moduleName with
  | none => .ok ()
  | some expected =>
    let missingExports :=
      expected.filter (fun n => !(hasExportDecl n.toList content))
    if missingExports.isEmpty then .ok ()
    else .error (buildMissingMsg moduleName missingExports filePath)

/-! # Theorems -/

/-! ## Loader lemmas shared by several claims. -/

theorem getInitWasmCall_cached (module initResult : JsVal) (st : LoaderState)
    (m : WasmHelloExports) (h : st.gexp = some m) :
    getInitWasmCall module initResult st =
      ({ st with defaultCount := st.defaultCount + 1 }, .ok initResult) := by
  simp [getInitWasmCall, taskStep, h]

theorem getInitWasmCall_first (module initResult : JsVal) (st : LoaderState)
    (mex : WasmHelloExports) (h : st.gexp = none)
    (hv : importValidate module = .ok mex) :
    getInitWasmCall module initResult st =
      ({ st with gexp := some mex, importCount := st.importCount + 1,
                 checksCount := st.checksCount + 1,
                 defaultCount := st.defaultCount + 1 }, .ok initResult) := by
  simp [getInitWasmCall, taskStep, h, hv]

theorem seqAcquire_cached (module initResult : JsVal)
    (m : WasmHelloExports) :
    ∀ (n : Nat) (st : LoaderState), st.gexp = some m →
      seqAcquire module initResult n st =
        ({ st with defaultCount := st.defaultCount + n },
         List.replicate n (Except.ok initResult)) := by
  intro n
  induction n with
  | zero => intro st h; simp [seqAcquire]
  | succ k ih =>
    intro st h
    simp only [seqAcquire, getInitWasmCall_cached module initResult st m h]
    rw [ih { st with defaultCount := st.defaultCount + 1 } h]
    simp [List.replicate_succ, Nat.add_assoc, Nat.add_comm 1 k]

/-- C2, corrected part: when acquire calls are strictly sequential (each call
issued only after the previous one completed) and the first import validates,
the dynamic import is issued exactly once over any number of calls, the cell
holds the validated record, and every caller observes the same result. -/
theorem seqAcquire_single_import (module initResult : JsVal)
    (mex : WasmHelloExports) (n : Nat)
    (hv : importValidate module = .ok mex) :
    (seqAcquire module initResult (n + 1) initLoaderState).1.importCount = 1 ∧
    (seqAcquire module initResult (n + 1) initLoaderState).1.gexp = some mex ∧
    (seqAcquire module initResult (n + 1) initLoaderState).2 =
      List.replicate (n + 1) (Except.ok initResult) := by
  have h1 := getInitWasmCall_first module initResult initLoaderState mex rfl hv
  simp only [seqAcquire, h1]
  rw [seqAcquire_cached module initResult mex n _ rfl]
  simp [initLoaderState, List.replicate_succ]

/-- C2, counterexample: two `acquire` calls interleaved before the
first import resolves (schedule: task 0 starts, task 1 starts, task 0 resumes,
task 1 resumes) issue the underlying dynamic import twice, not once, even
though both callers complete successfully — the claimed single-flight
property fails on `getInitWasm`, which has no in-flight cache. -/
theorem interleaved_acquire_imports_twice :
    (schedRun goodModule (.prim (.numV 0)) [0, 1, 0, 1]
      (initLoaderState, [.tstart, .tstart])).1.importCount = 2 ∧
    ¬ (schedRun goodModule (.prim (.numV 0)) [0, 1, 0, 1]
      (initLoaderState, [.tstart, .tstart])).1.importCount = 1 ∧
    (schedRun goodModule (.prim (.numV 0)) [0, 1, 0, 1]
      (initLoaderState, [.tstart, .tstart])).2 =
      [.tdone (.ok (.prim (.numV 0))), .tdone (.ok (.prim (.numV 0)))] := by
  decide

/-- Closed instance of `seqAcquire_single_import` at a concrete module and
two sequential calls. -/
theorem seqAcquire_single_import_witness :
    (seqAcquire goodModule (.prim (.numV 0)) 2 initLoaderState).1.importCount = 1 ∧
    (seqAcquire goodModule (.prim (.numV 0)) 2 initLoaderState).1.gexp =
      some goodModuleCell ∧
    (seqAcquire goodModule (.prim (.numV 0)) 2 initLoaderState).2 =
      List.replicate 2 (Except.ok (.prim (.numV 0))) :=
  seqAcquire_single_import goodModule (.prim (.numV 0)) goodModuleCell 1
    (by decide)

/-- C5: once the first acquire has succeeded (the module-level cell holds the
export record), a subsequent `getInitWasm` call keeps the memoized record
unchanged, does not issue the dynamic import again, does not re-run the
per-export validation block, and returns normally. -/
theorem cached_acquire_skips_import_and_checks (module initResult : JsVal)
    (st : LoaderState) (m : WasmHelloExports) (h : st.gexp = some m) :
    (getInitWasmCall module initResult st).1.gexp = some m ∧
    (getInitWasmCall module initResult st).1.importCount = st.importCount ∧
    (getInitWasmCall module initResult st).1.checksCount = st.checksCount ∧
    (getInitWasmCall module initResult st).2 = .ok initResult := by
  rw [getInitWasmCall_cached module initResult st m h]
  exact ⟨h, rfl, rfl, rfl⟩

/-- Closed instance of `cached_acquire_skips_import_and_checks` at a concrete
populated state. -/
theorem cached_acquire_skips_import_and_checks_witness :
    (getInitWasmCall goodModule (.prim (.numV 0))
      ⟨some goodCell, 1, 1, 1⟩).1.gexp = some goodCell ∧
    (getInitWasmCall goodModule (.prim (.numV 0))
      ⟨some goodCell, 1, 1, 1⟩).1.importCount = 1 ∧
    (getInitWasmCall goodModule (.prim (.numV 0))
      ⟨some goodCell, 1, 1, 1⟩).1.checksCount = 1 ∧
    (getInitWasmCall goodModule (.prim (.numV 0))
      ⟨some goodCell, 1, 1, 1⟩).2 = .ok (.prim (.numV 0)) :=
  cached_acquire_skips_import_and_checks goodModule (.prim (.numV 0))
    ⟨some goodCell, 1, 1, 1⟩ goodCell rfl

/-- C10: every completed `getInitWasm` call invokes the cached module's
`default` initializer exactly once — also when the exports are already
memoized, in which case only the dynamic import and the per-export checks are
skipped. -/
theorem acquire_invokes_initializer_each_call (module initResult : JsVal)
    (st : LoaderState)
    (h : st.gexp.isSome = true ∨ ∃ mex, importValidate module = .ok mex) :
    (getInitWasmCall module initResult st).1.defaultCount =
      st.defaultCount + 1 ∧
    (getInitWasmCall module initResult st).2 = .ok initResult ∧
    (st.gexp.isSome = true →
      (getInitWasmCall module initResult st).1.importCount = st.importCount ∧
      (getInitWasmCall module initResult st).1.checksCount = st.checksCount) := by
  match hg : st.gexp with
  | some m =>
    rw [getInitWasmCall_cached module initResult st m hg]
    exact ⟨rfl, rfl, fun _ => ⟨rfl, rfl⟩⟩
  | none =>
    rcases h with h | ⟨mex, hv⟩
    · rw [hg] at h; simp at h
    · rw [getInitWasmCall_first module initResult st mex hg hv]
      refine ⟨rfl, rfl, fun hs => ?_⟩
      simp at hs

/-- Closed instance of `acquire_invokes_initializer_each_call` at a cached
state. -/
theorem acquire_invokes_initializer_each_call_witness :
    (getInitWasmCall goodModule (.prim (.numV 0))
      ⟨some goodCell, 1, 1, 5⟩).1.defaultCount = 6 ∧
    (getInitWasmCall goodModule (.prim (.numV 0))
      ⟨some goodCell, 1, 1, 5⟩).2 = .ok (.prim (.numV 0)) ∧
    ((⟨some goodCell, 1, 1, 5⟩ : LoaderState).gexp.isSome = true →
      (getInitWasmCall goodModule (.prim (.numV 0))
        ⟨some goodCell, 1, 1, 5⟩).1.importCount = 1 ∧
      (getInitWasmCall goodModule (.prim (.numV 0))
        ⟨some goodCell, 1, 1, 5⟩).1.checksCount = 1) :=
  acquire_invokes_initializer_each_call goodModule (.prim (.numV 0))
    ⟨some goodCell, 1, 1, 5⟩ (Or.inl rfl)

/-! ## Export validator claims. -/

/-- C1, counterexample: a bag lacking both its `memory` member and its
`increment_counter` member, validated while the loader cell holds callable
functions (the only state in which `validateHelloModule` runs after a
successful import), produces a single failure naming only the memory
violation: the missing `increment_counter` of the bag is not reported,
because the function checks read the module-level cell, not the bag. -/
theorem validator_misses_bag_function_violation :
    validateHelloModule vwmAccept (some goodCell) emptyBag =
      .error (helloMissingMsg ["memory (WebAssembly.Memory)"] []) ∧
    ("increment_counter (function)" ∈
      helloMissingList (some goodCell) [] → False) := by
  decide

/-- C1, amended: `validateHelloModule` collects every violation it checks
before failing.  When the external check passes, the bag's `memory` member is
absent or not a `WebAssembly.Memory`, and the loader cell holds a value whose
`increment_counter` is not callable, the single failure reports the memory
violation and the `increment_counter` violation together. -/
theorem validator_collects_all_checked_violations (vwm : JsVal → Bool)
    (g : Option WasmHelloExports) (exports : JsVal)
    (fields : List (String × JsPrim)) (m : WasmHelloExports)
    (hv : vwm exports = true) (hf : objFields exports = some fields)
    (hmem : (!(jsTruthy (getProp fields "memory")) ||
             !(isWasmMemory (getProp fields "memory"))) = true)
    (hcell : g = some m)
    (hinc : typeofFunction m.increment_counter = false) :
    "memory (WebAssembly.Memory)" ∈ helloMissingList g fields ∧
    "increment_counter (function)" ∈ helloMissingList g fields ∧
    validateHelloModule vwm g exports =
      .error (helloMissingMsg (helloMissingList g fields) (objKeys fields)) := by
  subst hcell
  have hlist : helloMissingList (some m) fields =
      "memory (WebAssembly.Memory)" :: helloFnChecks m := by
    simp [helloMissingList, hmem]
  refine ⟨?_, ?_, ?_⟩
  · rw [hlist]; exact List.mem_cons_self _ _
  · rw [hlist]
    refine List.mem_cons_of_mem _ ?_
    simp only [helloFnChecks, hinc, Bool.false_eq_true, if_false,
      List.mem_append, List.mem_singleton]
    tauto
  · simp only [validateHelloModule, hv, Bool.not_true, Bool.false_eq_true,
      if_false, hf, hlist]
    simp

/-- Closed instance of `validator_collects_all_checked_violations`: an empty
bag against a cell whose `increment_counter` slot holds a number. -/
theorem validator_collects_all_checked_violations_witness :
    "memory (WebAssembly.Memory)" ∈
      helloMissingList (some { goodCell with increment_counter := .numV 7 }) [] ∧
    "increment_counter (function)" ∈
      helloMissingList (some { goodCell with increment_counter := .numV 7 }) [] ∧
    validateHelloModule vwmAccept
        (some { goodCell with increment_counter := .numV 7 }) emptyBag =
      .error (helloMissingMsg
        (helloMissingList (some { goodCell with increment_counter := .numV 7 }) [])
        (objKeys [])) :=
  validator_collects_all_checked_violations vwmAccept _ emptyBag []
    { goodCell with increment_counter := .numV 7 }
    (by decide) (by decide) (by decide) rfl (by decide)

/-- C9, counterexample: the validator's result is not a pure function of the
(bag, contract) pair alone — the same bag validates differently depending on
the module-level `wasmModuleExports` cell. -/
theorem validator_depends_on_cell_state :
    validateHelloModule vwmAccept none memOnlyBag ≠
      validateHelloModule vwmAccept (some goodCell) memOnlyBag := by
  decide

/-- C9, amended: the validator never mutates the bag (it is modelled as a
pure function) and its result is determined by the bag, the module-level
cell, and the verdict of the external `validateWasmModule` check on the bag:
two runs whose external checks agree on the bag coincide. -/
theorem validator_pure_in_bag_cell_and_verdict (vwm vwm2 : JsVal → Bool)
    (g : Option WasmHelloExports) (exports : JsVal)
    (h : vwm exports = vwm2 exports) :
    validateHelloModule vwm g exports = validateHelloModule vwm2 g exports := by
  simp only [validateHelloModule, h]

/-- Closed instance of `validator_pure_in_bag_cell_and_verdict` for two
distinct external checks agreeing on a concrete bag. -/
theorem validator_pure_in_bag_cell_and_verdict_witness :
    validateHelloModule vwmAccept (some goodCell) memOnlyBag =
      validateHelloModule (fun v => v == memOnlyBag) (some goodCell) memOnlyBag :=
  validator_pure_in_bag_cell_and_verdict vwmAccept (fun v => v == memOnlyBag)
    (some goodCell) memOnlyBag (by decide)

/-! ## Build-time export verification claims. -/

/-- C7: for a module with a registered contract, if any contracted export is
textually absent from the copied glue code, the build verification throws an
error whose diagnostic carries the complete list of missing exports: every
absent contracted export is in the reported list, not just the first. -/
theorem build_verification_names_all_missing (filePath : String)
    (content : List Char) (moduleName : String) (expected : List String)
    (hl : lookupExpected moduleName = some expected)
    (hmiss : ∃ n ∈ expected, hasExportDecl n.toList content = false) :
    validateWasmModuleExports filePath content moduleName =
      .error (buildMissingMsg moduleName
        (expected.filter (fun n => !(hasExportDecl n.toList content)))
        filePath) ∧
    ∀ n ∈ expected, hasExportDecl n.toList content = false →
      n ∈ expected.filter (fun n => !(hasExportDecl n.toList content)) := by
  obtain ⟨n0, hn0, hn0m⟩ := hmiss
  have hmem : n0 ∈ expected.filter (fun n => !(hasExportDecl n.toList content)) := by
    rw [List.mem_filter]
    exact ⟨hn0, by simpa using hn0m⟩
  have hne : (expected.filter
      (fun n => !(hasExportDecl n.toList content))).isEmpty = false := by
    rcases he : expected.filter (fun n => !(hasExportDecl n.toList content)) with
      _ | ⟨a, l⟩
    · rw [he] at hmem; simp at hmem
    · rw [he]; rfl
  constructor
  · simp only [validateWasmModuleExports, hl, hne, Bool.false_eq_true, if_false]
  · intro n hn hnm
    rw [List.mem_filter]
    exact ⟨hn, by simpa using hnm⟩

/-- Closed instance of `build_verification_names_all_missing`: empty glue
code for `wasm_astar` reports all five contracted exports. -/
theorem build_verification_names_all_missing_witness :
    validateWasmModuleExports "f.js" [] "wasm_astar" =
      .error (buildMissingMsg "wasm_astar"
        ((["wasm_init", "tick", "key_down", "key_up", "mouse_move"] :
          List String).filter (fun n => !(hasExportDecl n.toList [])))
        "f.js") ∧
    ∀ n ∈ (["wasm_init", "tick", "key_down", "key_up", "mouse_move"] :
      List String), hasExportDecl n.toList [] = false →
      n ∈ (["wasm_init", "tick", "key_down", "key_up", "mouse_move"] :
        List String).filter (fun n => !(hasExportDecl n.toList [])) :=
  build_verification_names_all_missing "f.js" [] "wasm_astar"
    ["wasm_init", "tick", "key_down", "key_up", "mouse_move"]
    (by decide) ⟨"wasm_init", by decide, by decide⟩

/-- C8: a module identity with no registered contract yields a "no contract"
lookup, and the build verification returns normally without raising. -/
theorem no_contract_skips_validation (filePath : String) (content : List Char)
    (moduleName : String) (h : lookupExpected moduleName = none) :
    validateWasmModuleExports filePath content moduleName = .ok () := by
  simp only [validateWasmModuleExports, h]

/-- Closed instance of `no_contract_skips_validation` at the unregistered
identity `wasm_hello`. -/
theorem no_contract_skips_validation_witness :
    validateWasmModuleExports "f.js" [] "wasm_hello" = .ok () :=
  no_contract_skips_validation "f.js" [] "wasm_hello" (by decide)

/-! ## Character-level lemmas for the rewriter machinery. -/

theorem stripLit_append (l r : List Char) : stripLit l (l ++ r) = some r := by
  induction l with
  | nil => rfl
  | cons a l ih => simp [stripLit, ih]

theorem stripLit_some (l : List Char) :
    ∀ s r, stripLit l s = some r → s = l ++ r := by
  induction l with
  | nil => intro s r h; simp [stripLit] at h; simp [h]
  | cons a l ih =>
    intro s r h
    match s with
    | [] => simp [stripLit] at h
    | c :: s =>
      simp only [stripLit] at h
      by_cases hc : c == a
      · rw [if_pos hc] at h
        have h2 := ih s r h
        simp only [List.cons_append]
        rw [h2, beq_iff_eq.mp hc]
      · rw [if_neg hc] at h; exact absurd h (by simp)

theorem stripCh_some (a : Char) (s r : List Char) (h : stripCh a s = some r) :
    s = a :: r := by
  match s with
  | [] => simp [stripCh] at h
  | c :: s =>
    simp only [stripCh] at h
    by_cases hc : c == a
    · rw [if_pos hc] at h
      simp only [Option.some.injEq] at h
      rw [h, beq_iff_eq.mp hc]
    · rw [if_neg hc] at h; exact absurd h (by simp)

theorem stripCh_cons (a : Char) (r : List Char) : stripCh a (a :: r) = some r := by
  simp [stripCh]

theorem dropWsL_cons_not {c : Char} (h : isWsChar c = false) (s : List Char) :
    dropWsL (c :: s) = c :: s := by
  simp [dropWsL, h]

theorem dropWsL_decomp (s : List Char) :
    ∃ w, s = w ++ dropWsL s ∧ ∀ c ∈ w, isWsChar c = true := by
  induction s with
  | nil => exact ⟨[], rfl, by simp⟩
  | cons c s ih =>
    by_cases hc : isWsChar c
    · obtain ⟨w, hw, hws⟩ := ih
      refine ⟨c :: w, ?_, ?_⟩
      · simp [dropWsL, hc]
        exact hw
      · intro x hx
        rcases List.mem_cons.mp hx with rfl | hx
        · exact hc
        · exact hws x hx
    · refine ⟨[], ?_, by simp⟩
      simp [dropWsL, hc]

theorem dropWsL_le (s : List Char) : (dropWsL s).length ≤ s.length := by
  induction s with
  | nil => simp [dropWsL]
  | cons c s ih =>
    by_cases hc : isWsChar c
    · simp only [dropWsL, hc, if_true]
      exact Nat.le_succ_of_le ih
    · simp [dropWsL, hc]

theorem takeNonQuote_append (p : List Char)
    (hp : ∀ c ∈ p, isQuoteChar c = false) (r : List Char)
    (hr : ∀ c t, r = c :: t → isQuoteChar c = true) :
    takeNonQuote (p ++ r) = (p, r) := by
  induction p with
  | nil =>
    match r with
    | [] => rfl
    | c :: t =>
      simp only [List.nil_append, takeNonQuote, hr c t rfl, if_true]
  | cons a p ih =>
    have ha : isQuoteChar a = false := hp a (List.mem_cons_self a p)
    simp only [List.cons_append, takeNonQuote, ha, Bool.false_eq_true, if_false,
      List.append_eq]
    rw [ih (fun c hc => hp c (List.mem_cons_of_mem a hc))]

theorem takeNonQuote_split (s : List Char) :
    s = (takeNonQuote s).1 ++ (takeNonQuote s).2 := by
  induction s with
  | nil => rfl
  | cons c s ih =>
    by_cases hc : isQuoteChar c
    · simp [takeNonQuote, hc]
    · simp only [takeNonQuote, hc, Bool.false_eq_true, if_false]
      rw [List.cons_append, ← ih]

theorem takeNonQuote_fst (s : List Char) :
    ∀ c ∈ (takeNonQuote s).1, isQuoteChar c = false := by
  induction s with
  | nil => simp [takeNonQuote]
  | cons c s ih =>
    by_cases hc : isQuoteChar c
    · simp [takeNonQuote, hc]
    · simp only [takeNonQuote, hc, Bool.false_eq_true, if_false]
      intro x hx
      rcases List.mem_cons.mp hx with rfl | hx
      · simpa using hc
      · exact ih x hx

theorem takeNonQuote_snd_head (s : List Char) (c : Char) (t : List Char)
    (h : (takeNonQuote s).2 = c :: t) : isQuoteChar c = true := by
  induction s with
  | nil => simp [takeNonQuote] at h
  | cons a s ih =>
    by_cases ha : isQuoteChar a
    · simp only [takeNonQuote, ha, if_true] at h
      obtain ⟨rfl, -⟩ := List.cons.injEq a s c t ▸ h
      exact ha
    · simp only [takeNonQuote, ha, Bool.false_eq_true, if_false] at h
      exact ih h

theorem takeNoParen_append (p : List Char)
    (hp : ∀ c ∈ p, (c == ')') = false) (r : List Char)
    (hr : ∀ c t, r = c :: t → (c == ')') = true) :
    takeNoParen (p ++ r) = (p, r) := by
  induction p with
  | nil =>
    match r with
    | [] => rfl
    | c :: t =>
      simp only [List.nil_append, takeNoParen, hr c t rfl, if_true]
  | cons a p ih =>
    have ha := hp a (List.mem_cons_self a p)
    simp only [List.cons_append, takeNoParen, ha, Bool.false_eq_true, if_false,
      List.append_eq]
    rw [ih (fun c hc => hp c (List.mem_cons_of_mem a hc))]

theorem takeNoParen_split (s : List Char) :
    s = (takeNoParen s).1 ++ (takeNoParen s).2 := by
  induction s with
  | nil => rfl
  | cons c s ih =>
    by_cases hc : (c == ')')
    · simp [takeNoParen, hc]
    · simp only [takeNoParen, hc, Bool.false_eq_true, if_false]
      rw [List.cons_append, ← ih]

theorem dropDots_eq_none (s : List Char)
    (h : ∀ rest, s ≠ '.' :: '.' :: '/' :: rest) : dropDots s = none := by
  unfold dropDots
  split
  · rename_i rest; exact absurd rfl (h rest)
  · rfl

theorem dropDots_cons_eq (rest : List Char) :
    dropDots ('.' :: '.' :: '/' :: rest) =
      (match dropDots rest with
       | some r => some r
       | none => some rest) := by
  rfl

theorem dropDots_rep (r : List Char) (h : dropDots r = none) :
    ∀ k, dropDots (dotsRep (k + 1) ++ r) = some r := by
  intro k
  induction k with
  | zero =>
    show dropDots (('.' :: '.' :: '/' :: dotsRep 0) ++ r) = some r
    simp only [dotsRep, List.nil_append, List.cons_append]
    rw [dropDots_cons_eq, h]
  | succ k ih =>
    show dropDots (('.' :: '.' :: '/' :: dotsRep (k + 1)) ++ r) = some r
    simp only [List.cons_append]
    rw [dropDots_cons_eq, ih]

theorem dropDots_head (s r : List Char) (h : dropDots s = some r) :
    ∃ t, s = '.' :: t := by
  match s with
  | '.' :: '.' :: '/' :: rest => exact ⟨'.' :: '/' :: rest, rfl⟩
  | [] => simp [dropDots] at h
  | [c] =>
    rw [show dropDots [c] = none from by unfold dropDots; split <;> simp_all] at h
    exact absurd h (by simp)
  | [c, d] =>
    rw [show dropDots [c, d] = none from by unfold dropDots; split <;> simp_all] at h
    exact absurd h (by simp)
  | c :: d :: e :: rest =>
    by_cases hc : c = '.' ∧ d = '.' ∧ e = '/'
    · exact ⟨d :: e :: rest, by rw [hc.1]⟩
    · rw [show dropDots (c :: d :: e :: rest) = none from by
        unfold dropDots; split <;> simp_all] at h
      exact absurd h (by simp)

theorem dropDots_le_n : ∀ (n : Nat) (s : List Char), s.length ≤ n →
    ∀ r, dropDots s = some r → r.length ≤ s.length := by
  intro n
  induction n with
  | zero =>
    intro s hs r h
    have hnil : s = [] := List.length_eq_zero.mp (Nat.le_zero.mp hs)
    subst hnil
    simp [dropDots] at h
  | succ n ihn =>
    intro s hs r h
    by_cases hshape : ∃ rest, s = '.' :: '.' :: '/' :: rest
    · obtain ⟨rest, rfl⟩ := hshape
      rw [dropDots_cons_eq] at h
      rcases hd : dropDots rest with - | r2
      · rw [hd] at h
        simp only [Option.some.injEq] at h
        subst h
        simp only [List.length_cons]
        omega
      · rw [hd] at h
        simp only [Option.some.injEq] at h
        have hrest : rest.length ≤ n := by
          simp only [List.length_cons] at hs
          omega
        have hle := ihn rest hrest r2 hd
        rw [← h]
        simp only [List.length_cons]
        omega
    · rw [dropDots_eq_none s (fun rest hr => hshape ⟨rest, hr⟩)] at h
      exact absurd h (by simp)

theorem dropDots_le (s r : List Char) (h : dropDots s = some r) :
    r.length ≤ s.length :=
  dropDots_le_n s.length s le_rfl r h

theorem ws_not_quote {c : Char} (h : isWsChar c = true) : isQuoteChar c = false := by
  simp only [isWsChar, Bool.or_eq_true, beq_iff_eq] at h
  rcases h with ((((h | h) | h) | h) | h) | h <;> subst h <;> decide

theorem quote_cases {q : Char} (h : isQuoteChar q = true) :
    q = dqChar ∨ q = sqChar := by
  simp only [isQuoteChar, Bool.or_eq_true, beq_iff_eq] at h
  exact h

theorem takeQuote_some (s : List Char) (qs : Char × List Char)
    (h : takeQuote s = some qs) :
    s = qs.1 :: qs.2 ∧ isQuoteChar qs.1 = true := by
  match s with
  | [] => simp [takeQuote] at h
  | c :: t =>
    simp only [takeQuote] at h
    by_cases hc : isQuoteChar c
    · rw [if_pos hc] at h
      simp only [Option.some.injEq] at h
      rw [← h]
      exact ⟨rfl, hc⟩
    · rw [if_neg hc] at h; exact absurd h (by simp)

theorem stripQuoteParen_some (q : Char) (s s7 : List Char)
    (h : stripQuoteParen q s = some s7) : s = q :: ')' :: s7 := by
  match s with
  | [] => simp [stripQuoteParen] at h
  | [c] => simp [stripQuoteParen] at h
  | q2 :: c :: t =>
    simp only [stripQuoteParen] at h
    by_cases hqc : (q2 == q && (c == ')')) = true
    · rw [if_pos hqc] at h
      simp only [Option.some.injEq] at h
      simp only [Bool.and_eq_true, beq_iff_eq] at hqc
      rw [← h, hqc.1, hqc.2]
    · rw [if_neg hqc] at h; exact absurd h (by simp)

theorem tryMatchRelCore_some (dots : List Char → Option (List Char))
    (hdHead : ∀ s r, dots s = some r → ∃ t, s = '.' :: t)
    (hdLe : ∀ s r, dots s = some r → r.length ≤ s.length)
    (s : List Char) (rep rest : List Char)
    (h : tryMatchRelCore dots s = some (rep, rest)) :
    (∃ w q y, s = impLit ++ w ++ '(' :: q :: '.' :: y ∧
      (∀ c ∈ w, isWsChar c = true) ∧ isQuoteChar q = true) ∧
    rest.length < s.length := by
  simp only [tryMatchRelCore, bind, Option.bind_eq_some] at h
  obtain ⟨s1, h1, h⟩ := h
  obtain ⟨s2, h2, h⟩ := h
  obtain ⟨qs, hqs, h⟩ := h
  obtain ⟨s4, h4, h⟩ := h
  obtain ⟨s5, h5, h⟩ := h
  by_cases hpe : ((takeNonQuote s5).1).isEmpty
  · rw [if_pos hpe] at h; exact absurd h (by simp)
  · rw [if_neg hpe] at h
    simp only [bind, Option.bind_eq_some] at h
    obtain ⟨s7, h7, h⟩ := h
    simp only [Option.some.injEq, Prod.mk.injEq] at h
    obtain ⟨hrep, hrest⟩ := h
    obtain ⟨hs2, hq⟩ := takeQuote_some s2 qs hqs
    obtain ⟨y0, hy0⟩ := hdHead qs.2 s4 h4
    have hsw : s = impLit ++ s1 := stripLit_some _ _ _ h1
    obtain ⟨w, hw, hws⟩ := dropWsL_decomp s1
    have hpar : dropWsL s1 = '(' :: s2 := stripCh_some _ _ _ h2
    constructor
    · refine ⟨w, qs.1, y0, ?_, hws, hq⟩
      rw [hsw, hw, hpar, hs2, hy0]
      simp [List.append_assoc]
    · -- length accounting
      have l1 : s.length = impLit.length + s1.length := by
        rw [hsw]; simp
      have l2 : s1.length = w.length + (dropWsL s1).length := by
        conv_lhs => rw [hw]
        simp
      have l3 : (dropWsL s1).length = 1 + s2.length := by
        rw [hpar]; simp [Nat.add_comm]
      have l4 : s2.length = 1 + qs.2.length := by
        rw [hs2]; simp [Nat.add_comm]
      have l5 : s4.length ≤ qs.2.length := hdLe qs.2 s4 h4
      have l6 : s4.length = pkgRelLit.length + s5.length := by
        rw [stripLit_some _ _ _ h5]; simp
      have l7 : s5.length = ((takeNonQuote s5).1).length +
          ((takeNonQuote s5).2).length := by
        conv_lhs => rw [takeNonQuote_split s5]
        simp
      have l8 : ((takeNonQuote s5).2).length = 2 + s7.length := by
        rw [stripQuoteParen_some _ _ _ h7]; simp; omega
      have limp : impLit.length = 6 := rfl
      have lpkg : pkgRelLit.length = 4 := rfl
      rw [← hrest]
      omega

theorem tryMatchPreHead_some (s : List Char) (qps : Char × List Char × List Char)
    (h : tryMatchPreHead s = some qps) :
    (∃ t, s = '_' :: '_' :: t) ∧ isQuoteChar qps.1 = true ∧
    qps.2.2.length + 12 ≤ s.length := by
  simp only [tryMatchPreHead, bind, Option.bind_eq_some] at h
  obtain ⟨s1, h1, h⟩ := h
  obtain ⟨s2, h2, h⟩ := h
  obtain ⟨s3, h3, h⟩ := h
  obtain ⟨s4, h4, h⟩ := h
  obtain ⟨s5, h5, h⟩ := h
  obtain ⟨s6, h6, h⟩ := h
  obtain ⟨s7, h7, h⟩ := h
  obtain ⟨s8, h8, h⟩ := h
  obtain ⟨qs, hqs, h⟩ := h
  obtain ⟨s10, h10, h⟩ := h
  by_cases hpe : ((takeNonQuote s10).1).isEmpty
  · rw [if_pos hpe] at h; exact absurd h (by simp)
  · rw [if_neg hpe] at h
    simp only [bind, Option.bind_eq_some] at h
    obtain ⟨s12, h12, h⟩ := h
    simp only [Option.some.injEq] at h
    obtain ⟨hs2, hq⟩ := takeQuote_some s8 qs hqs
    have hsw : s = vpLit ++ s1 := stripLit_some _ _ _ h1
    refine ⟨⟨'v' :: 'i' :: 't' :: 'e' :: 'P' :: 'r' :: 'e' :: 'l' :: 'o' :: 'a' :: 'd' :: s1, by rw [hsw]; rfl⟩, ?_, ?_⟩
    · rw [← h]; exact hq
    · have l1 : s.length = 13 + s1.length := by rw [hsw]; simp [vpLit]; omega
      have l2 : s1.length ≥ 1 + s2.length := by
        have := stripCh_some _ _ _ h2
        have hle := dropWsL_le s1
        rw [this] at hle
        simp at hle
        omega
      have l3 : s2.length ≥ 1 + s3.length := by
        have := stripCh_some _ _ _ h3
        have hle := dropWsL_le s2
        rw [this] at hle
        simp at hle
        omega
      have l4 : s3.length = 1 + s4.length := by
        rw [stripCh_some _ _ _ h4]; simp [Nat.add_comm]
      have l5 : s4.length ≥ 1 + s5.length := by
        have := stripCh_some _ _ _ h5
        have hle := dropWsL_le s4
        rw [this] at hle
        simp at hle
        omega
      have l6 : s5.length = 1 + s6.length := by
        rw [stripCh_some _ _ _ h6]; simp [Nat.add_comm]
      have l7 : s6.length ≥ 6 + s7.length := by
        have he7 := stripLit_some _ _ _ h7
        have hle := dropWsL_le s6
        rw [he7] at hle
        simp only [List.length_append, impLit, List.length_cons,
          List.length_nil] at hle
        omega
      have l8 : s7.length ≥ 1 + s8.length := by
        have := stripCh_some _ _ _ h8
        have hle := dropWsL_le s7
        rw [this] at hle
        simp at hle
        omega
      have l9 : s8.length = 1 + qs.2.length := by
        rw [hs2]; simp [Nat.add_comm]
      have l10 : qs.2.length = 5 + s10.length := by
        rw [stripLit_some _ _ _ h10]; simp [pkgAbsLit]; omega
      have l11 : s10.length = ((takeNonQuote s10).1).length +
          ((takeNonQuote s10).2).length := by
        conv_lhs => rw [takeNonQuote_split s10]
        simp
      have l12 : ((takeNonQuote s10).2).length = 2 + s12.length := by
        rw [stripQuoteParen_some _ _ _ h12]; simp; omega
      have hq22 : qps.2.2 = s12 := by rw [← h]
      rw [hq22]
      omega

theorem dotsLit_head (s r : List Char) (h : stripLit dotsLit s = some r) :
    ∃ t, s = '.' :: t := by
  rw [stripLit_some _ _ _ h]
  exact ⟨'.' :: '/' :: r, rfl⟩

theorem dotsLit_le (s r : List Char) (h : stripLit dotsLit s = some r) :
    r.length ≤ s.length := by
  rw [stripLit_some _ _ _ h]
  simp [dotsLit]
  omega

theorem tryMatchRel_shrink (s : List Char) (x : List Char × List Char)
    (h : tryMatchRel s = some x) : x.2.length < s.length :=
  (tryMatchRelCore_some dropDots dropDots_head dropDots_le s x.1 x.2
    (by rw [Prod.mk.eta]; exact h)).2

theorem tryMatchRel2_shrink (s : List Char) (x : List Char × List Char)
    (h : tryMatchRel2 s = some x) : x.2.length < s.length :=
  (tryMatchRelCore_some (stripLit dotsLit) dotsLit_head dotsLit_le s x.1 x.2
    (by rw [Prod.mk.eta]; exact h)).2

theorem tryMatchPre1_shrink (s : List Char) (x : List Char × List Char)
    (h : tryMatchPre1 s = some x) : x.2.length < s.length := by
  obtain ⟨r, t, rfl⟩ : ∃ r t, x = (r, t) := ⟨x.1, x.2, rfl⟩
  simp only [tryMatchPre1, bind, Option.bind_eq_some] at h
  obtain ⟨qps, hh, h⟩ := h
  obtain ⟨s13, h13, h⟩ := h
  obtain ⟨s14, h14, h⟩ := h
  obtain ⟨s15, h15, h⟩ := h
  obtain ⟨s16, h16, h⟩ := h
  simp only [Option.some.injEq, Prod.mk.injEq] at h
  obtain ⟨-, hrest⟩ := h
  obtain ⟨-, -, hlen⟩ := tryMatchPreHead_some s qps hh
  have l13 : s13.length < qps.2.2.length + 1 := by
    have he := stripCh_some _ _ _ h13
    have hle := dropWsL_le qps.2.2
    rw [he] at hle
    simp at hle
    omega
  have l14 : s14.length < s13.length + 1 := by
    have he := stripCh_some _ _ _ h14
    have hle := dropWsL_le s13
    rw [he] at hle
    simp at hle
    omega
  have l15 : s15.length < s14.length := by
    rw [stripCh_some _ _ _ h15]
    simp
  have l16 : s16.length < s15.length + 1 := by
    have he := stripCh_some _ _ _ h16
    have hle := dropWsL_le s15
    rw [he] at hle
    simp at hle
    omega
  simp only [← hrest]
  omega

theorem tryMatchPre2_shrink (s : List Char) (x : List Char × List Char)
    (h : tryMatchPre2 s = some x) : x.2.length < s.length := by
  obtain ⟨r, t, rfl⟩ : ∃ r t, x = (r, t) := ⟨x.1, x.2, rfl⟩
  simp only [tryMatchPre2, bind, Option.bind_eq_some] at h
  obtain ⟨qps, hh, h⟩ := h
  obtain ⟨s13, h13, h⟩ := h
  by_cases hpe : ((takeNoParen s13).1).isEmpty
  · rw [if_pos hpe] at h; exact absurd h (by simp)
  · rw [if_neg hpe] at h
    simp only [bind, Option.bind_eq_some] at h
    obtain ⟨s15, h15, h⟩ := h
    simp only [Option.some.injEq, Prod.mk.injEq] at h
    obtain ⟨-, hrest⟩ := h
    obtain ⟨-, -, hlen⟩ := tryMatchPreHead_some s qps hh
    have l13 : s13.length < qps.2.2.length + 1 := by
      have he := stripCh_some _ _ _ h13
      have hle := dropWsL_le qps.2.2
      rw [he] at hle
      simp at hle
      omega
    have lsplit : s13.length = ((takeNoParen s13).1).length +
        ((takeNoParen s13).2).length := by
      conv_lhs => rw [takeNoParen_split s13]
      simp
    have l15 : s15.length < ((takeNoParen s13).2).length := by
      rw [stripCh_some _ _ _ h15]
      simp
    simp only [← hrest]
    omega

theorem relCore_none_head (dots : List Char → Option (List Char)) (c : Char)
    (s : List Char) (h : ¬ c = 'i') :
    tryMatchRelCore dots (c :: s) = none := by
  have h0 : stripLit impLit (c :: s) = none := by
    simp only [impLit, stripLit]
    rw [if_neg (by simp [h])]
  simp [tryMatchRelCore, h0]

theorem startsWith_uu_of_cons (t : List Char) :
    startsWithL uuLit ('_' :: '_' :: t) = true := by
  simp [startsWithL, uuLit]

theorem preHead_none_not_uu (s : List Char)
    (h : startsWithL uuLit s = false) : tryMatchPreHead s = none := by
  rcases hm : tryMatchPreHead s with - | qps
  · rfl
  · obtain ⟨⟨t, rfl⟩, -, -⟩ := tryMatchPreHead_some s qps hm
    rw [startsWith_uu_of_cons] at h
    exact absurd h (by simp)

theorem pre1_none_not_uu (s : List Char)
    (h : startsWithL uuLit s = false) : tryMatchPre1 s = none := by
  simp [tryMatchPre1, preHead_none_not_uu s h]

theorem pre2_none_not_uu (s : List Char)
    (h : startsWithL uuLit s = false) : tryMatchPre2 s = none := by
  simp [tryMatchPre2, preHead_none_not_uu s h]

theorem relCore_none_ctx (dots : List Char → Option (List Char))
    (hdHead : ∀ s r, dots s = some r → ∃ t, s = '.' :: t)
    (hdLe : ∀ s r, dots s = some r → r.length ≤ s.length)
    (p2 : List Char) (q : Char) (t : List Char)
    (hp2 : ∀ c ∈ p2, isQuoteChar c = false) (hq : isQuoteChar q = true) :
    tryMatchRelCore dots (p2 ++ q :: ')' :: t) = none := by
  rcases hm : tryMatchRelCore dots (p2 ++ q :: ')' :: t) with - | ⟨rep, rest⟩
  · rfl
  exfalso
  obtain ⟨⟨w, q', y, hs, hws, hq'⟩, -⟩ :=
    tryMatchRelCore_some dots hdHead hdLe _ _ _ hm
  have h1 : takeNonQuote (p2 ++ q :: ')' :: t) = (p2, q :: ')' :: t) :=
    takeNonQuote_append p2 hp2 _ (fun c t2 hct => by
      obtain ⟨hcq, -⟩ := List.cons_eq_cons.mp hct
      rw [← hcq]; exact hq)
  have h2 : takeNonQuote (impLit ++ w ++ '(' :: q' :: '.' :: y) =
      (impLit ++ w ++ ['('], q' :: '.' :: y) := by
    have hra : impLit ++ w ++ '(' :: q' :: '.' :: y =
        (impLit ++ w ++ ['(']) ++ (q' :: '.' :: y) := by simp
    rw [hra]
    apply takeNonQuote_append
    · intro c hc
      rcases List.mem_append.mp hc with hc | hc
      · rcases List.mem_append.mp hc with hc | hc
        · simp only [impLit, List.mem_cons, List.not_mem_nil, or_false] at hc
          rcases hc with rfl | rfl | rfl | rfl | rfl | rfl <;> decide
        · exact ws_not_quote (hws c hc)
      · simp only [List.mem_singleton] at hc
        subst hc; decide
    · intro c t2 hct
      obtain ⟨hcq, -⟩ := List.cons_eq_cons.mp hct
      rw [← hcq]; exact hq'
  rw [hs] at h1
  rw [h1] at h2
  obtain ⟨-, hsnd⟩ := Prod.mk.injEq .. ▸ h2
  obtain ⟨-, hsnd2⟩ := List.cons_eq_cons.mp hsnd
  obtain ⟨habs, -⟩ := List.cons_eq_cons.mp hsnd2
  exact absurd habs (by decide)

theorem relCore_none_noquote (dots : List Char → Option (List Char))
    (hdHead : ∀ s r, dots s = some r → ∃ t, s = '.' :: t)
    (hdLe : ∀ s r, dots s = some r → r.length ≤ s.length)
    (s : List Char) (hnq : ∀ c ∈ s, isQuoteChar c = false) :
    tryMatchRelCore dots s = none := by
  rcases hm : tryMatchRelCore dots s with - | ⟨rep, rest⟩
  · rfl
  exfalso
  obtain ⟨⟨w, q, y, hs, hws, hq⟩, -⟩ :=
    tryMatchRelCore_some dots hdHead hdLe _ _ _ hm
  have hmem : q ∈ s := by
    rw [hs]; simp
  rw [hnq q hmem] at hq
  exact absurd hq (by simp)

theorem takeQuote_cons (q : Char) (s : List Char) (hq : isQuoteChar q = true) :
    takeQuote (q :: s) = some (q, s) := by
  simp [takeQuote, hq]

theorem stripQuoteParen_cons (q : Char) (s : List Char) :
    stripQuoteParen q (q :: ')' :: s) = some s := by
  simp [stripQuoteParen]

theorem relCore_dirImp_none (dots : List Char → Option (List Char))
    (hdSlash : ∀ x, dots ('/' :: x) = none)
    (q : Char) (p t : List Char) (hq : isQuoteChar q = true) :
    tryMatchRelCore dots (dirImp q p ++ t) = none := by
  have hexp : dirImp q p ++ t =
      impLit ++ ('(' :: q :: '/' :: 'p' :: 'k' :: 'g' :: '/' ::
        (p ++ q :: ')' :: t)) := by
    simp [dirImp, pkgAbsLit]
  rw [hexp]
  simp only [tryMatchRelCore, bind, stripLit_append, Option.some_bind,
    dropWsL_cons_not (show isWsChar '(' = false by decide), stripCh_cons,
    takeQuote_cons _ _ hq, hdSlash, Option.none_bind]

theorem tryMatchRel_relImp (q : Char) (k : Nat) (p t : List Char)
    (hq : isQuoteChar q = true) (hp : p ≠ [])
    (hpq : ∀ c ∈ p, isQuoteChar c = false) :
    tryMatchRel (relImp q k p ++ t) = some (dirImp q p, t) := by
  have hexp : relImp q k p ++ t =
      impLit ++ ('(' :: q :: (dotsRep (k + 1) ++
        ('p' :: 'k' :: 'g' :: '/' :: (p ++ q :: ')' :: t)))) := by
    simp [relImp, pkgRelLit]
  have hdd : dropDots (dotsRep (k + 1) ++
      ('p' :: 'k' :: 'g' :: '/' :: (p ++ q :: ')' :: t))) =
      some ('p' :: 'k' :: 'g' :: '/' :: (p ++ q :: ')' :: t)) :=
    dropDots_rep _ (by rw [dropDots_eq_none]; intro rest; simp) _
  have htnq : takeNonQuote (p ++ q :: ')' :: t) = (p, q :: ')' :: t) :=
    takeNonQuote_append p hpq _ (fun c t2 hct => by
      obtain ⟨hcq, -⟩ := List.cons_eq_cons.mp hct
      rw [← hcq]; exact hq)
  have hpk : stripLit pkgRelLit
      ('p' :: 'k' :: 'g' :: '/' :: (p ++ q :: ')' :: t)) =
      some (p ++ q :: ')' :: t) := stripLit_append pkgRelLit _
  rw [hexp]
  simp only [tryMatchRel, tryMatchRelCore, bind, stripLit_append,
    Option.some_bind,
    dropWsL_cons_not (show isWsChar '(' = false by decide), stripCh_cons,
    takeQuote_cons _ _ hq, hdd, hpk, htnq]
  rw [if_neg (by simp [hp])]
  simp only [stripQuoteParen_cons, Option.some_bind]

theorem stripLit_impLit_cons (x : List Char) :
    stripLit impLit ('i' :: 'm' :: 'p' :: 'o' :: 'r' :: 't' :: x) = some x := by
  simp [impLit, stripLit]

theorem stripLit_pkgAbs_cons (x : List Char) :
    stripLit pkgAbsLit ('/' :: 'p' :: 'k' :: 'g' :: '/' :: x) = some x := by
  simp [pkgAbsLit, stripLit]

theorem tryMatchPreHead_wrap (q : Char) (p rest : List Char)
    (hq : isQuoteChar q = true) (hp : p ≠ [])
    (hpq : ∀ c ∈ p, isQuoteChar c = false) :
    tryMatchPreHead (wrapHead ++ dirImp q p ++ rest) = some (q, p, rest) := by
  have hexp : wrapHead ++ dirImp q p ++ rest =
      vpLit ++ ('(' :: '(' :: ')' :: '=' :: '>' :: 'i' :: 'm' :: 'p' :: 'o' ::
        'r' :: 't' :: '(' :: q :: '/' :: 'p' :: 'k' :: 'g' :: '/' ::
        (p ++ q :: ')' :: rest)) := by
    simp [wrapHead, dirImp, pkgAbsLit, impLit, vpLit]
  have htnq : takeNonQuote (p ++ q :: ')' :: rest) = (p, q :: ')' :: rest) :=
    takeNonQuote_append p hpq _ (fun c t2 hct => by
      obtain ⟨hcq, -⟩ := List.cons_eq_cons.mp hct
      rw [← hcq]; exact hq)
  rw [hexp]
  simp only [tryMatchPreHead, bind, stripLit_append, Option.some_bind,
    dropWsL_cons_not (show isWsChar '(' = false by decide),
    dropWsL_cons_not (show isWsChar '=' = false by decide),
    dropWsL_cons_not (show isWsChar 'i' = false by decide),
    stripCh_cons, stripLit_impLit_cons, takeQuote_cons _ _ hq,
    stripLit_pkgAbs_cons, htnq]
  rw [if_neg (by simp [hp])]
  simp only [stripQuoteParen_cons, Option.some_bind]

theorem tryMatchPre1_shape1 (q : Char) (p t : List Char)
    (hq : isQuoteChar q = true) (hp : p ≠ [])
    (hpq : ∀ c ∈ p, isQuoteChar c = false) :
    tryMatchPre1 (shape1 q p ++ t) = some (dirImp q p, t) := by
  have hexp : shape1 q p ++ t =
      wrapHead ++ dirImp q p ++ (',' :: '[' :: ']' :: ')' :: t) := by
    simp [shape1]
  rw [hexp]
  simp only [tryMatchPre1, bind, tryMatchPreHead_wrap q p _ hq hp hpq,
    Option.some_bind,
    dropWsL_cons_not (show isWsChar ',' = false by decide),
    dropWsL_cons_not (show isWsChar '[' = false by decide),
    dropWsL_cons_not (show isWsChar ')' = false by decide),
    stripCh_cons]

theorem tryMatchPre2_shape2 (q : Char) (p arg t : List Char)
    (hq : isQuoteChar q = true) (hp : p ≠ [])
    (hpq : ∀ c ∈ p, isQuoteChar c = false) (ha : arg ≠ [])
    (hap : ∀ c ∈ arg, (c == ')') = false) :
    tryMatchPre2 (shape2 q p arg ++ t) = some (dirImp q p, t) := by
  have hexp : shape2 q p arg ++ t =
      wrapHead ++ dirImp q p ++ (',' :: (arg ++ ')' :: t)) := by
    simp [shape2]
  have htnp : takeNoParen (arg ++ ')' :: t) = (arg, ')' :: t) :=
    takeNoParen_append arg hap _ (fun c t2 hct => by
      obtain ⟨hcq, -⟩ := List.cons_eq_cons.mp hct
      rw [← hcq]; simp)
  rw [hexp]
  simp only [tryMatchPre2, bind, tryMatchPreHead_wrap q p _ hq hp hpq,
    Option.some_bind,
    dropWsL_cons_not (show isWsChar ',' = false by decide),
    stripCh_cons, htnp]
  rw [if_neg (by simp [ha])]

theorem stripBracketFail (arg : List Char) (hnb : '[' ∉ arg) (t : List Char) :
    stripCh '[' (dropWsL (arg ++ ')' :: t)) = none := by
  induction arg with
  | nil =>
    simp only [List.nil_append,
      dropWsL_cons_not (show isWsChar ')' = false by decide)]
    simp [stripCh]
  | cons c arg ih =>
    by_cases hc : isWsChar c
    · simp only [List.cons_append, dropWsL, hc, if_true]
      exact ih (fun hmem => hnb (List.mem_cons_of_mem c hmem))
    · simp only [List.cons_append, dropWsL, hc, Bool.false_eq_true, if_false]
      have hcb : c ≠ '[' := fun hcb => hnb (hcb ▸ List.mem_cons_self c arg)
      simp [stripCh, hcb]

theorem tryMatchPre1_shape2_none (q : Char) (p arg t : List Char)
    (hq : isQuoteChar q = true) (hp : p ≠ [])
    (hpq : ∀ c ∈ p, isQuoteChar c = false) (hnb : '[' ∉ arg) :
    tryMatchPre1 (shape2 q p arg ++ t) = none := by
  have hexp : shape2 q p arg ++ t =
      wrapHead ++ dirImp q p ++ (',' :: (arg ++ ')' :: t)) := by
    simp [shape2]
  rw [hexp]
  simp only [tryMatchPre1, bind, tryMatchPreHead_wrap q p _ hq hp hpq,
    Option.some_bind,
    dropWsL_cons_not (show isWsChar ',' = false by decide),
    stripCh_cons, stripBracketFail arg hnb t, Option.none_bind]

/-! ## Generic global-replace scan lemmas. -/

theorem scanGAux_succ_none (m : List Char → Option (List Char × List Char))
    (f : Nat) (c : Char) (rest : List Char) (hm : m (c :: rest) = none) :
    scanGAux m (f + 1) (c :: rest) = c :: scanGAux m f rest := by
  simp only [scanGAux, hm]

theorem scanGAux_succ_some (m : List Char → Option (List Char × List Char))
    (f : Nat) (c : Char) (rest : List Char) (r t : List Char)
    (hm : m (c :: rest) = some (r, t)) :
    scanGAux m (f + 1) (c :: rest) = r ++ scanGAux m f t := by
  simp only [scanGAux, hm]

theorem scanGAux_congr (m : List Char → Option (List Char × List Char))
    (Hm : ∀ s x, m s = some x → x.2.length < s.length) :
    ∀ f s, s.length ≤ f → scanGAux m f s = scanGAux m s.length s := by
  intro f
  induction f using Nat.strong_induction_on with
  | _ f ih =>
    intro s hs
    match s with
    | [] =>
      match f with
      | 0 => rfl
      | f + 1 => rfl
    | c :: rest =>
      match f with
      | 0 => simp at hs
      | f + 1 =>
        simp only [List.length_cons] at hs ⊢
        rcases hm : m (c :: rest) with - | ⟨r, t⟩
        · rw [scanGAux_succ_none m f c rest hm,
            scanGAux_succ_none m rest.length c rest hm]
          have h1 := ih f (Nat.lt_succ_self f) rest (by omega)
          have h2 := ih rest.length (by omega) rest (by omega)
          rw [h1, h2]
        · rw [scanGAux_succ_some m f c rest r t hm,
            scanGAux_succ_some m rest.length c rest r t hm]
          have hlt := Hm (c :: rest) (r, t) hm
          simp only [List.length_cons] at hlt
          have h1 := ih f (Nat.lt_succ_self f) t (by omega)
          have h2 := ih rest.length (by omega) t (by omega)
          rw [h1, h2]

theorem scanG_nil (m : List Char → Option (List Char × List Char)) :
    scanG m [] = [] := rfl

theorem scanG_cons_none (m : List Char → Option (List Char × List Char))
    (c : Char) (t : List Char) (hm : m (c :: t) = none) :
    scanG m (c :: t) = c :: scanG m t := by
  show scanGAux m (c :: t).length (c :: t) = c :: scanG m t
  simp only [List.length_cons]
  exact scanGAux_succ_none m t.length c t hm

theorem scanG_cons_some (m : List Char → Option (List Char × List Char))
    (Hm : ∀ s x, m s = some x → x.2.length < s.length)
    (c : Char) (rest : List Char) (r t : List Char)
    (hm : m (c :: rest) = some (r, t)) :
    scanG m (c :: rest) = r ++ scanG m t := by
  show scanGAux m (c :: rest).length (c :: rest) = r ++ scanG m t
  simp only [List.length_cons]
  rw [scanGAux_succ_some m rest.length c rest r t hm]
  have hlt := Hm (c :: rest) (r, t) hm
  simp only [List.length_cons] at hlt
  rw [scanGAux_congr m Hm rest.length t (by omega)]
  rfl

theorem scanG_copy (m : List Char → Option (List Char × List Char))
    (seg t : List Char)
    (h : ∀ p2, p2 <:+ seg → p2 ≠ [] → m (p2 ++ t) = none) :
    scanG m (seg ++ t) = seg ++ scanG m t := by
  induction seg with
  | nil => simp
  | cons c seg ih =>
    have h0 : m ((c :: seg) ++ t) = none :=
      h (c :: seg) (List.suffix_refl _) (by simp)
    rw [List.cons_append, scanG_cons_none m c (seg ++ t) (by simpa using h0)]
    rw [ih (fun p2 hsuf hne => h p2 (hsuf.trans (List.suffix_cons c seg)) hne)]
    simp

theorem scanG_self (m : List Char → Option (List Char × List Char))
    (s : List Char) (h : ∀ p2, p2 <:+ s → p2 ≠ [] → m p2 = none) :
    scanG m s = s := by
  have hc := scanG_copy m s [] (fun p2 hs hn => by
    rw [List.append_nil]
    exact h p2 hs hn)
  rw [List.append_nil] at hc
  rw [hc, scanG_nil, List.append_nil]

theorem includes_of_suffix_startsWith (pat : List Char) :
    ∀ (s p2 : List Char), p2 <:+ s → startsWithL pat p2 = true →
      includesL pat s = true := by
  intro s
  induction s with
  | nil =>
    intro p2 hsuf hsw
    rw [List.suffix_nil.mp hsuf] at hsw
    simp only [includesL]
    exact hsw
  | cons c s ih =>
    intro p2 hsuf hsw
    rcases List.suffix_cons_iff.mp hsuf with rfl | hsuf'
    · simp only [includesL, hsw, Bool.true_or]
    · simp only [includesL, ih p2 hsuf' hsw, Bool.or_true]

theorem quote_ne_char {q : Char} (h : isQuoteChar q = true) (c : Char)
    (hc : isQuoteChar c = false) : ¬ q = c := by
  intro he
  rw [he, hc] at h
  exact absurd h (by simp)

theorem relCore_none_ite (dots : List Char → Option (List Char))
    (x : List Char) : tryMatchRelCore dots ('i' :: 't' :: x) = none := by
  have h0 : stripLit impLit ('i' :: 't' :: x) = none := by
    simp [impLit, stripLit]
  simp [tryMatchRelCore, h0]

theorem scanRel_dirImp_pass (dots : List Char → Option (List Char))
    (hdHead : ∀ s r, dots s = some r → ∃ t, s = '.' :: t)
    (hdLe : ∀ s r, dots s = some r → r.length ≤ s.length)
    (hdSlash : ∀ x, dots ('/' :: x) = none)
    (q : Char) (p t : List Char) (hq : isQuoteChar q = true)
    (hpq : ∀ c ∈ p, isQuoteChar c = false) :
    scanG (tryMatchRelCore dots) (dirImp q p ++ t) =
      dirImp q p ++ scanG (tryMatchRelCore dots) t := by
  have hqi : ¬ q = 'i' := quote_ne_char hq 'i' (by decide)
  have hexp : dirImp q p ++ t =
      'i' :: (['m', 'p', 'o', 'r', 't', '(', q, '/', 'p', 'k', 'g', '/'] ++
        (p ++ q :: ')' :: t)) := by
    simp [dirImp, impLit, pkgAbsLit]
  rw [hexp]
  rw [scanG_cons_none _ _ _ (by
    rw [← hexp]
    exact relCore_dirImp_none dots hdSlash q p t hq)]
  rw [scanG_copy _ (['m', 'p', 'o', 'r', 't', '(', q, '/', 'p', 'k', 'g', '/'])
    _ (fun p2 hsuf hne => by
      match p2, hne with
      | c :: p2', _ =>
        have hc : c ∈ ['m', 'p', 'o', 'r', 't', '(', q, '/', 'p', 'k', 'g', '/'] :=
          hsuf.subset (List.mem_cons_self c p2')
        have hci : ¬ c = 'i' := by
          simp only [List.mem_cons, List.not_mem_nil, or_false] at hc
          rcases hc with rfl | rfl | rfl | rfl | rfl | rfl | rfl | rfl | rfl |
            rfl | rfl | rfl
          · decide
          · decide
          · decide
          · decide
          · decide
          · decide
          · exact hqi
          · decide
          · decide
          · decide
          · decide
          · decide
        simpa using relCore_none_head dots c (p2' ++ (p ++ q :: ')' :: t)) hci)]
  rw [scanG_copy _ p _ (fun p2 hsuf hne =>
    relCore_none_ctx dots hdHead hdLe p2 q t
      (fun c hc => hpq c (hsuf.subset hc)) hq)]
  rw [scanG_cons_none _ _ _
    (relCore_none_ctx dots hdHead hdLe [] q t (by simp) hq)]
  rw [scanG_cons_none _ _ _ (relCore_none_head dots ')' t (by decide))]
  simp [dirImp, impLit, pkgAbsLit]

theorem scanRel_relImp (q : Char) (k : Nat) (p t : List Char)
    (hq : isQuoteChar q = true) (hp : p ≠ [])
    (hpq : ∀ c ∈ p, isQuoteChar c = false) :
    scanG (tryMatchRelCore dropDots) (relImp q k p ++ t) =
      dirImp q p ++ scanG (tryMatchRelCore dropDots) t := by
  have hm := tryMatchRel_relImp q k p t hq hp hpq
  have hexp : relImp q k p ++ t =
      'i' :: ('m' :: 'p' :: 'o' :: 'r' :: 't' :: '(' :: q ::
        (dotsRep (k + 1) ++ ('p' :: 'k' :: 'g' :: '/' ::
          (p ++ q :: ')' :: t)))) := by
    simp [relImp, impLit, pkgRelLit]
  rw [hexp]
  rw [scanG_cons_some (tryMatchRelCore dropDots)
    (fun s x h => tryMatchRel_shrink s x h) _ _ _ _ (by
      rw [← hexp]; exact hm)]

theorem relCore_copy_no_i (dots : List Char → Option (List Char))
    (seg X : List Char) (hseg : ∀ c ∈ seg, ¬ c = 'i') :
    scanG (tryMatchRelCore dots) (seg ++ X) =
      seg ++ scanG (tryMatchRelCore dots) X :=
  scanG_copy _ seg X (fun p2 hsuf hne => by
    match p2, hne with
    | c :: p2', _ =>
      simpa using relCore_none_head dots c (p2' ++ X)
        (hseg c (hsuf.subset (List.mem_cons_self c p2'))))

theorem relCore_self_noquote (dots : List Char → Option (List Char))
    (hdHead : ∀ s r, dots s = some r → ∃ t, s = '.' :: t)
    (hdLe : ∀ s r, dots s = some r → r.length ≤ s.length)
    (s : List Char) (hsq : ∀ c ∈ s, isQuoteChar c = false) :
    scanG (tryMatchRelCore dots) s = s :=
  scanG_self _ s (fun p2 hsuf _ =>
    relCore_none_noquote dots hdHead hdLe p2
      (fun c hc => hsq c (hsuf.subset hc)))

theorem scanRel_wrapHead_pass (dots : List Char → Option (List Char))
    (X : List Char) :
    scanG (tryMatchRelCore dots) (wrapHead ++ X) =
      wrapHead ++ scanG (tryMatchRelCore dots) X := by
  have hexp : wrapHead ++ X =
      ['_', '_', 'v'] ++ ('i' :: (['t', 'e', 'P', 'r', 'e', 'l', 'o', 'a',
        'd', '(', '(', ')', '=', '>'] ++ X)) := by
    simp [wrapHead, vpLit]
  rw [hexp]
  rw [relCore_copy_no_i dots ['_', '_', 'v'] _ (by decide)]
  rw [scanG_cons_none _ _ _ (by
    simpa using relCore_none_ite dots
      (['e', 'P', 'r', 'e', 'l', 'o', 'a', 'd', '(', '(', ')', '=', '>'] ++ X))]
  rw [relCore_copy_no_i dots
    ['t', 'e', 'P', 'r', 'e', 'l', 'o', 'a', 'd', '(', '(', ')', '=', '>'] _
    (by decide)]
  simp [wrapHead, vpLit]

theorem scanRel_shape1_pass (dots : List Char → Option (List Char))
    (hdHead : ∀ s r, dots s = some r → ∃ t, s = '.' :: t)
    (hdLe : ∀ s r, dots s = some r → r.length ≤ s.length)
    (hdSlash : ∀ x, dots ('/' :: x) = none)
    (q : Char) (p X : List Char) (hq : isQuoteChar q = true)
    (hpq : ∀ c ∈ p, isQuoteChar c = false) :
    scanG (tryMatchRelCore dots) (shape1 q p ++ X) =
      shape1 q p ++ scanG (tryMatchRelCore dots) X := by
  have hexp : shape1 q p ++ X =
      wrapHead ++ (dirImp q p ++ ([',', '[', ']', ')'] ++ X)) := by
    simp [shape1]
  rw [hexp, scanRel_wrapHead_pass,
    scanRel_dirImp_pass dots hdHead hdLe hdSlash q p _ hq hpq,
    relCore_copy_no_i dots [',', '[', ']', ')'] _ (by decide)]
  simp [shape1]

theorem scanRel_shape2_pass (dots : List Char → Option (List Char))
    (hdHead : ∀ s r, dots s = some r → ∃ t, s = '.' :: t)
    (hdLe : ∀ s r, dots s = some r → r.length ≤ s.length)
    (hdSlash : ∀ x, dots ('/' :: x) = none)
    (q : Char) (p A X : List Char) (hq : isQuoteChar q = true)
    (hpq : ∀ c ∈ p, isQuoteChar c = false)
    (hAq : ∀ c ∈ A, isQuoteChar c = false)
    (hXq : ∀ c ∈ X, isQuoteChar c = false) :
    scanG (tryMatchRelCore dots) (shape2 q p A ++ X) =
      shape2 q p A ++ scanG (tryMatchRelCore dots) X := by
  have hexp : shape2 q p A ++ X =
      wrapHead ++ (dirImp q p ++ (',' :: (A ++ (')' :: X)))) := by
    simp [shape2]
  rw [hexp, scanRel_wrapHead_pass,
    scanRel_dirImp_pass dots hdHead hdLe hdSlash q p _ hq hpq,
    scanG_cons_none _ _ _ (relCore_none_head dots ',' _ (by decide)),
    scanG_copy _ A _ (fun p2 hsuf _ =>
      relCore_none_noquote dots hdHead hdLe (p2 ++ ')' :: X) (by
        intro c hc
        rcases List.mem_append.mp hc with hc | hc
        · exact hAq c (hsuf.subset hc)
        · rcases List.mem_cons.mp hc with rfl | hc
          · decide
          · exact hXq c hc)),
    scanG_cons_none _ _ _ (relCore_none_head dots ')' X (by decide))]
  simp [shape2]

theorem startsWith_uu_head_false {c : Char} (hc : ¬ c = '_')
    (rest : List Char) : startsWithL uuLit (c :: rest) = false := by
  simp [startsWithL, uuLit, hc]

theorem startsWith_uu_ctx (seg : List Char)
    (huu : includesL uuLit seg = false) (p2 : List Char) (hsuf : p2 <:+ seg)
    (X : List Char) (hX : ∀ c r, X = c :: r → ¬ c = '_') :
    startsWithL uuLit (p2 ++ X) = false := by
  match p2 with
  | [] =>
    match X with
    | [] => rfl
    | c :: r =>
      simp only [List.nil_append]
      exact startsWith_uu_head_false (hX c r rfl) r
  | [c] =>
    by_cases hc : c = '_'
    · subst hc
      match X with
      | [] => rfl
      | x :: r =>
        have hx := hX x r rfl
        simp [startsWithL, uuLit, hx]
    · exact startsWith_uu_head_false hc _
  | c1 :: c2 :: p2' =>
    by_cases h12 : c1 = '_' ∧ c2 = '_'
    · exfalso
      obtain ⟨rfl, rfl⟩ := h12
      have hinc : includesL uuLit seg = true :=
        includes_of_suffix_startsWith uuLit seg _ hsuf
          (startsWith_uu_of_cons p2')
      rw [hinc] at huu
      exact absurd huu (by simp)
    · rcases not_and_or.mp h12 with hc | hc
      · exact startsWith_uu_head_false hc _
      · simp [startsWithL, uuLit, hc]

theorem preM_copy_no_us (m : List Char → Option (List Char × List Char))
    (Hnuu : ∀ s, startsWithL uuLit s = false → m s = none)
    (seg X : List Char) (hseg : ∀ c ∈ seg, ¬ c = '_') :
    scanG m (seg ++ X) = seg ++ scanG m X :=
  scanG_copy _ seg X (fun p2 hsuf hne => by
    match p2, hne with
    | c :: p2', _ =>
      have hm := Hnuu ((c :: p2') ++ X) (by
        simp only [List.cons_append]
        exact startsWith_uu_head_false
          (hseg c (hsuf.subset (List.mem_cons_self c p2'))) _)
      exact hm)

theorem preM_copy_uu_seg (m : List Char → Option (List Char × List Char))
    (Hnuu : ∀ s, startsWithL uuLit s = false → m s = none)
    (seg X : List Char) (huu : includesL uuLit seg = false)
    (hX : ∀ c r, X = c :: r → ¬ c = '_') :
    scanG m (seg ++ X) = seg ++ scanG m X :=
  scanG_copy _ seg X (fun p2 hsuf _ =>
    Hnuu _ (startsWith_uu_ctx seg huu p2 hsuf X hX))

theorem preM_self_uu (m : List Char → Option (List Char × List Char))
    (Hnuu : ∀ s, startsWithL uuLit s = false → m s = none)
    (s : List Char) (huu : includesL uuLit s = false) :
    scanG m s = s :=
  scanG_self _ s (fun p2 hsuf _ => Hnuu _ (by
    have hctx := startsWith_uu_ctx s huu p2 hsuf []
      (fun c r hcr => by simp at hcr)
    simpa using hctx))

theorem preM_dirImp_pass (m : List Char → Option (List Char × List Char))
    (Hnuu : ∀ s, startsWithL uuLit s = false → m s = none)
    (q : Char) (p X : List Char) (hq : isQuoteChar q = true)
    (hpu : includesL uuLit p = false) :
    scanG m (dirImp q p ++ X) = dirImp q p ++ scanG m X := by
  have hqu : ¬ q = '_' := quote_ne_char hq '_' (by decide)
  have hexp : dirImp q p ++ X =
      ['i', 'm', 'p', 'o', 'r', 't', '('] ++ (q ::
        (['/', 'p', 'k', 'g', '/'] ++ (p ++ (q :: (')' :: X))))) := by
    simp [dirImp, impLit, pkgAbsLit]
  rw [hexp]
  rw [preM_copy_no_us m Hnuu ['i', 'm', 'p', 'o', 'r', 't', '('] _ (by decide)]
  rw [scanG_cons_none _ _ _ (Hnuu _ (startsWith_uu_head_false hqu _))]
  rw [preM_copy_no_us m Hnuu ['/', 'p', 'k', 'g', '/'] _ (by decide)]
  rw [preM_copy_uu_seg m Hnuu p _ hpu (fun c r hcr => by
    obtain ⟨hc, -⟩ := List.cons_eq_cons.mp hcr.symm
    rw [hc]; exact hqu)]
  rw [scanG_cons_none _ _ _ (Hnuu _ (startsWith_uu_head_false hqu _))]
  rw [scanG_cons_none _ _ _ (Hnuu _ (startsWith_uu_head_false
    (show ¬ ')' = '_' by decide) _))]
  simp [dirImp, impLit, pkgAbsLit]

theorem scanG_prefix_some (m : List Char → Option (List Char × List Char))
    (Hm : ∀ s x, m s = some x → x.2.length < s.length)
    (s X r t : List Char) (hm : m (s ++ X) = some (r, t)) (hs : s ≠ []) :
    scanG m (s ++ X) = r ++ scanG m t := by
  match s, hs with
  | c :: s', _ =>
    rw [List.cons_append]
    exact scanG_cons_some m Hm c (s' ++ X) r t (by
      rw [← List.cons_append]; exact hm)

theorem shape1_ne_nil (q : Char) (p : List Char) : shape1 q p ≠ [] := by
  simp [shape1, wrapHead, vpLit]

theorem shape2_ne_nil (q : Char) (p A : List Char) : shape2 q p A ≠ [] := by
  simp [shape2, wrapHead, vpLit]

theorem scanPre1_shape1_match (q : Char) (p X : List Char)
    (hq : isQuoteChar q = true) (hp : p ≠ [])
    (hpq : ∀ c ∈ p, isQuoteChar c = false) :
    scanG tryMatchPre1 (shape1 q p ++ X) =
      dirImp q p ++ scanG tryMatchPre1 X :=
  scanG_prefix_some tryMatchPre1 tryMatchPre1_shrink (shape1 q p) X _ _
    (tryMatchPre1_shape1 q p X hq hp hpq) (shape1_ne_nil q p)

theorem scanPre2_shape2_match (q : Char) (p A X : List Char)
    (hq : isQuoteChar q = true) (hp : p ≠ [])
    (hpq : ∀ c ∈ p, isQuoteChar c = false) (ha : A ≠ [])
    (hap : ∀ c ∈ A, (c == ')') = false) :
    scanG tryMatchPre2 (shape2 q p A ++ X) =
      dirImp q p ++ scanG tryMatchPre2 X :=
  scanG_prefix_some tryMatchPre2 tryMatchPre2_shrink (shape2 q p A) X _ _
    (tryMatchPre2_shape2 q p A X hq hp hpq ha hap) (shape2_ne_nil q p A)

theorem scanPre1_shape2_pass (q : Char) (p A X : List Char)
    (hq : isQuoteChar q = true) (hp : p ≠ [])
    (hpq : ∀ c ∈ p, isQuoteChar c = false) (hbr : '[' ∉ A)
    (hpu : includesL uuLit p = false) (hAu : includesL uuLit A = false) :
    scanG tryMatchPre1 (shape2 q p A ++ X) =
      shape2 q p A ++ scanG tryMatchPre1 X := by
  have hexp : shape2 q p A ++ X =
      '_' :: '_' :: (['v', 'i', 't', 'e', 'P', 'r', 'e', 'l', 'o', 'a', 'd',
        '(', '(', ')', '=', '>'] ++ (dirImp q p ++ (',' :: (A ++ ')' :: X)))) := by
    simp [shape2, wrapHead, vpLit, dirImp, impLit, pkgAbsLit]
  rw [hexp]
  rw [scanG_cons_none _ _ _ (by
    rw [← hexp]
    exact tryMatchPre1_shape2_none q p A X hq hp hpq hbr)]
  rw [scanG_cons_none _ _ _ (pre1_none_not_uu _ (by
    simp [startsWithL, uuLit]))]
  rw [preM_copy_no_us tryMatchPre1 pre1_none_not_uu
    ['v', 'i', 't', 'e', 'P', 'r', 'e', 'l', 'o', 'a', 'd',
     '(', '(', ')', '=', '>'] _ (by decide)]
  rw [preM_dirImp_pass tryMatchPre1 pre1_none_not_uu q p _ hq hpu]
  rw [scanG_cons_none _ _ _ (pre1_none_not_uu _
    (startsWith_uu_head_false (by decide) _))]
  rw [preM_copy_uu_seg tryMatchPre1 pre1_none_not_uu A _ hAu
    (fun c r hcr => by
      obtain ⟨hc, -⟩ := List.cons_eq_cons.mp hcr.symm
      rw [hc]; decide)]
  rw [scanG_cons_none _ _ _ (pre1_none_not_uu _
    (startsWith_uu_head_false (by decide) _))]
  simp [shape2, wrapHead, vpLit, dirImp, impLit, pkgAbsLit]

theorem startsWith_append_self (l r : List Char) :
    startsWithL l (l ++ r) = true := by
  induction l with
  | nil => rfl
  | cons a l ih => simp [startsWithL, ih]

theorem includes_nil_pat (y : List Char) : includesL [] y = true := by
  match y with
  | [] => rfl
  | c :: r => simp [includesL, startsWithL]

theorem includes_intro (pat x y : List Char) :
    includesL pat (x ++ (pat ++ y)) = true := by
  induction x with
  | nil =>
    rw [List.nil_append]
    match pat with
    | [] => exact includes_nil_pat y
    | a :: l =>
      have h1 : startsWithL (a :: l) (a :: (l ++ y)) = true := by
        have := startsWith_append_self (a :: l) y
        rw [List.cons_append] at this
        exact this
      simp [includesL, h1]
  | cons c x ih =>
    rw [List.cons_append]
    simp [includesL, ih, List.append_eq]

theorem startsWith_vp_uu (s : List Char) (h : startsWithL vpLit s = true) :
    startsWithL uuLit s = true := by
  match s with
  | [] => simp [startsWithL, vpLit] at h
  | [c] => simp [startsWithL, vpLit] at h
  | c1 :: c2 :: t =>
    simp only [startsWithL, vpLit, uuLit, Bool.and_eq_true] at h ⊢
    exact ⟨h.1, h.2.1, trivial⟩

theorem includes_vp_false (s : List Char)
    (h : includesL uuLit s = false) : includesL vpLit s = false := by
  rcases hv : includesL vpLit s with - | -
  · rfl
  · exfalso
    have hex : ∃ p2, p2 <:+ s ∧ startsWithL vpLit p2 = true := by
      clear h
      induction s with
      | nil => simp [includesL, startsWithL, vpLit] at hv
      | cons c s ih =>
        simp only [includesL, Bool.or_eq_true] at hv
        rcases hv with hv | hv
        · exact ⟨c :: s, List.suffix_refl _, hv⟩
        · obtain ⟨p2, hsuf, hsw⟩ := ih hv
          exact ⟨p2, hsuf.trans (List.suffix_cons c s), hsw⟩
    obtain ⟨p2, hsuf, hsw⟩ := hex
    have := includes_of_suffix_startsWith uuLit s p2 hsuf (startsWith_vp_uu p2 hsw)
    rw [this] at h
    exact absurd h (by simp)

theorem dropDots_slash (x : List Char) : dropDots ('/' :: x) = none := by
  rw [dropDots_eq_none]
  intro rest
  simp

theorem dotsLit_slash (x : List Char) : stripLit dotsLit ('/' :: x) = none := by
  simp [dotsLit, stripLit]

theorem rel2_self_noquote (s : List Char)
    (hsq : ∀ c ∈ s, isQuoteChar c = false) :
    scanG (tryMatchRelCore (stripLit dotsLit)) s = s :=
  relCore_self_noquote (stripLit dotsLit) dotsLit_head dotsLit_le s hsq

theorem rel1_self_noquote (s : List Char)
    (hsq : ∀ c ∈ s, isQuoteChar c = false) :
    scanG (tryMatchRelCore dropDots) s = s :=
  relCore_self_noquote dropDots dropDots_head dropDots_le s hsq

theorem rewriteChunk_relImp (a b : List Char) (q : Char) (k : Nat)
    (p : List Char) (ha : ∀ c ∈ a, ¬ c = 'i')
    (hb : ∀ c ∈ b, isQuoteChar c = false) (hq : isQuoteChar q = true)
    (hp : p ≠ []) (hpq : ∀ c ∈ p, isQuoteChar c = false) :
    rewriteWasmImportsChunk (a ++ relImp q k p ++ b) =
      a ++ dirImp q p ++ b := by
  unfold rewriteWasmImportsChunk
  have h1 : scanG tryMatchRel (a ++ relImp q k p ++ b) =
      a ++ dirImp q p ++ b := by
    rw [List.append_assoc]
    show scanG (tryMatchRelCore dropDots) (a ++ (relImp q k p ++ b)) = _
    rw [relCore_copy_no_i dropDots a _ ha]
    rw [scanRel_relImp q k p b hq hp hpq, rel1_self_noquote b hb]
    simp
  rw [h1]
  rw [List.append_assoc]
  show scanG (tryMatchRelCore (stripLit dotsLit)) (a ++ (dirImp q p ++ b)) = _
  rw [relCore_copy_no_i (stripLit dotsLit) a _ ha]
  rw [scanRel_dirImp_pass (stripLit dotsLit) dotsLit_head dotsLit_le
    dotsLit_slash q p b hq hpq]
  rw [rel2_self_noquote b hb]

theorem rewriteChunk_dirImp (a b : List Char) (q : Char)
    (p : List Char) (ha : ∀ c ∈ a, ¬ c = 'i')
    (hb : ∀ c ∈ b, isQuoteChar c = false) (hq : isQuoteChar q = true)
    (hpq : ∀ c ∈ p, isQuoteChar c = false) :
    rewriteWasmImportsChunk (a ++ dirImp q p ++ b) =
      a ++ dirImp q p ++ b := by
  unfold rewriteWasmImportsChunk
  have h1 : scanG tryMatchRel (a ++ dirImp q p ++ b) =
      a ++ dirImp q p ++ b := by
    rw [List.append_assoc]
    show scanG (tryMatchRelCore dropDots) (a ++ (dirImp q p ++ b)) = _
    rw [relCore_copy_no_i dropDots a _ ha]
    rw [scanRel_dirImp_pass dropDots dropDots_head dropDots_le dropDots_slash
      q p b hq hpq]
    rw [rel1_self_noquote b hb]
  rw [h1]
  rw [List.append_assoc]
  show scanG (tryMatchRelCore (stripLit dotsLit)) (a ++ (dirImp q p ++ b)) = _
  rw [relCore_copy_no_i (stripLit dotsLit) a _ ha]
  rw [scanRel_dirImp_pass (stripLit dotsLit) dotsLit_head dotsLit_le
    dotsLit_slash q p b hq hpq]
  rw [rel2_self_noquote b hb]

theorem rewriteChunk_shape1 (a b : List Char) (q : Char) (p : List Char)
    (ha : ∀ c ∈ a, ¬ c = 'i') (hb : ∀ c ∈ b, isQuoteChar c = false)
    (hq : isQuoteChar q = true) (hpq : ∀ c ∈ p, isQuoteChar c = false) :
    rewriteWasmImportsChunk (a ++ shape1 q p ++ b) =
      a ++ shape1 q p ++ b := by
  unfold rewriteWasmImportsChunk
  have h1 : scanG (tryMatchRelCore dropDots) (a ++ shape1 q p ++ b) =
      a ++ shape1 q p ++ b := by
    rw [List.append_assoc]
    rw [relCore_copy_no_i dropDots a _ ha]
    rw [scanRel_shape1_pass dropDots dropDots_head dropDots_le dropDots_slash
      q p b hq hpq]
    rw [rel1_self_noquote b hb]
  show scanG (tryMatchRelCore (stripLit dotsLit))
    (scanG (tryMatchRelCore dropDots) (a ++ shape1 q p ++ b)) = _
  rw [h1]
  rw [List.append_assoc]
  rw [relCore_copy_no_i (stripLit dotsLit) a _ ha]
  rw [scanRel_shape1_pass (stripLit dotsLit) dotsLit_head dotsLit_le
    dotsLit_slash q p b hq hpq]
  rw [rel2_self_noquote b hb]

theorem rewriteChunk_shape2 (a b : List Char) (q : Char) (p A : List Char)
    (ha : ∀ c ∈ a, ¬ c = 'i') (hb : ∀ c ∈ b, isQuoteChar c = false)
    (hq : isQuoteChar q = true) (hpq : ∀ c ∈ p, isQuoteChar c = false)
    (hAq : ∀ c ∈ A, isQuoteChar c = false) :
    rewriteWasmImportsChunk (a ++ shape2 q p A ++ b) =
      a ++ shape2 q p A ++ b := by
  unfold rewriteWasmImportsChunk
  have h1 : scanG (tryMatchRelCore dropDots) (a ++ shape2 q p A ++ b) =
      a ++ shape2 q p A ++ b := by
    rw [List.append_assoc]
    rw [relCore_copy_no_i dropDots a _ ha]
    rw [scanRel_shape2_pass dropDots dropDots_head dropDots_le dropDots_slash
      q p A b hq hpq hAq hb]
    rw [rel1_self_noquote b hb]
  show scanG (tryMatchRelCore (stripLit dotsLit))
    (scanG (tryMatchRelCore dropDots) (a ++ shape2 q p A ++ b)) = _
  rw [h1]
  rw [List.append_assoc]
  rw [relCore_copy_no_i (stripLit dotsLit) a _ ha]
  rw [scanRel_shape2_pass (stripLit dotsLit) dotsLit_head dotsLit_le
    dotsLit_slash q p A b hq hpq hAq hb]
  rw [rel2_self_noquote b hb]

theorem removeChunk_no_vp (code : List Char)
    (h : includesL vpLit code = false) :
    removeVitePreloadChunk code = code := by
  unfold removeVitePreloadChunk
  rw [h]
  simp

theorem removeChunk_shape1 (a b : List Char) (q : Char) (p : List Char)
    (ha : ∀ c ∈ a, ¬ c = '_') (hb : includesL uuLit b = false)
    (hq : isQuoteChar q = true) (hp : p ≠ [])
    (hpq : ∀ c ∈ p, isQuoteChar c = false)
    (hpu : includesL uuLit p = false) :
    removeVitePreloadChunk (a ++ shape1 q p ++ b) =
      a ++ dirImp q p ++ b := by
  have hpkg : includesL pkgAbsLit (a ++ shape1 q p ++ b) = true := by
    have hsplit : a ++ shape1 q p ++ b =
        (a ++ (wrapHead ++ ['i', 'm', 'p', 'o', 'r', 't', '(', q])) ++
          (pkgAbsLit ++ (p ++ [q, ')'] ++ [',', '[', ']', ')'] ++ b)) := by
      simp [shape1, dirImp, impLit, pkgAbsLit]
    rw [hsplit]
    exact includes_intro _ _ _
  have hvp : includesL vpLit (a ++ shape1 q p ++ b) = true := by
    have hsplit : a ++ shape1 q p ++ b =
        a ++ (vpLit ++ (['(', '(', ')', '=', '>'] ++ dirImp q p ++
          [',', '[', ']', ')'] ++ b)) := by
      simp [shape1, wrapHead]
    rw [hsplit]
    exact includes_intro _ _ _
  unfold removeVitePreloadChunk
  rw [hpkg, hvp]
  simp only [Bool.and_self, if_true]
  have h1 : scanG tryMatchPre1 (a ++ shape1 q p ++ b) =
      a ++ dirImp q p ++ b := by
    rw [List.append_assoc]
    rw [preM_copy_no_us tryMatchPre1 pre1_none_not_uu a _ ha]
    rw [scanPre1_shape1_match q p b hq hp hpq]
    rw [preM_self_uu tryMatchPre1 pre1_none_not_uu b hb]
    rw [← List.append_assoc]
  rw [h1]
  rw [List.append_assoc]
  rw [preM_copy_no_us tryMatchPre2 pre2_none_not_uu a _ ha]
  rw [preM_dirImp_pass tryMatchPre2 pre2_none_not_uu q p b hq hpu]
  rw [preM_self_uu tryMatchPre2 pre2_none_not_uu b hb]

theorem removeChunk_shape2 (a b : List Char) (q : Char) (p A : List Char)
    (ha : ∀ c ∈ a, ¬ c = '_') (hb : includesL uuLit b = false)
    (hq : isQuoteChar q = true) (hp : p ≠ [])
    (hpq : ∀ c ∈ p, isQuoteChar c = false)
    (hpu : includesL uuLit p = false)
    (hA : A ≠ []) (hap : ∀ c ∈ A, (c == ')') = false) (hbr : '[' ∉ A)
    (hAu : includesL uuLit A = false) :
    removeVitePreloadChunk (a ++ shape2 q p A ++ b) =
      a ++ dirImp q p ++ b := by
  have hpkg : includesL pkgAbsLit (a ++ shape2 q p A ++ b) = true := by
    have hsplit : a ++ shape2 q p A ++ b =
        (a ++ (wrapHead ++ ['i', 'm', 'p', 'o', 'r', 't', '(', q])) ++
          (pkgAbsLit ++ (p ++ [q, ')'] ++ (',' :: (A ++ [')'])) ++ b)) := by
      simp [shape2, dirImp, impLit, pkgAbsLit]
    rw [hsplit]
    exact includes_intro _ _ _
  have hvp : includesL vpLit (a ++ shape2 q p A ++ b) = true := by
    have hsplit : a ++ shape2 q p A ++ b =
        a ++ (vpLit ++ (['(', '(', ')', '=', '>'] ++ dirImp q p ++
          (',' :: (A ++ [')'])) ++ b)) := by
      simp [shape2, wrapHead]
    rw [hsplit]
    exact includes_intro _ _ _
  unfold removeVitePreloadChunk
  rw [hpkg, hvp]
  simp only [Bool.and_self, if_true]
  have h1 : scanG tryMatchPre1 (a ++ shape2 q p A ++ b) =
      a ++ shape2 q p A ++ b := by
    rw [List.append_assoc]
    rw [preM_copy_no_us tryMatchPre1 pre1_none_not_uu a _ ha]
    rw [scanPre1_shape2_pass q p A b hq hp hpq hbr hpu hAu]
    rw [preM_self_uu tryMatchPre1 pre1_none_not_uu b hb]
  rw [h1]
  rw [List.append_assoc]
  rw [preM_copy_no_us tryMatchPre2 pre2_none_not_uu a _ ha]
  rw [scanPre2_shape2_match q p A b hq hp hpq hA hap]
  rw [preM_self_uu tryMatchPre2 pre2_none_not_uu b hb]
  rw [← List.append_assoc]

theorem rewriter_relImp (a b : List Char) (q : Char) (k : Nat) (p : List Char)
    (ha : ∀ c ∈ a, ¬ c = 'i') (hb : ∀ c ∈ b, isQuoteChar c = false)
    (hq : isQuoteChar q = true) (hp : p ≠ [])
    (hpq : ∀ c ∈ p, isQuoteChar c = false)
    (huu : includesL uuLit (a ++ dirImp q p ++ b) = false) :
    wasmImportRewriter (a ++ relImp q k p ++ b) = a ++ dirImp q p ++ b := by
  unfold wasmImportRewriter
  rw [rewriteChunk_relImp a b q k p ha hb hq hp hpq]
  exact removeChunk_no_vp _ (includes_vp_false _ huu)

theorem rewriter_dirImp (a b : List Char) (q : Char) (p : List Char)
    (ha : ∀ c ∈ a, ¬ c = 'i') (hb : ∀ c ∈ b, isQuoteChar c = false)
    (hq : isQuoteChar q = true) (hpq : ∀ c ∈ p, isQuoteChar c = false)
    (huu : includesL uuLit (a ++ dirImp q p ++ b) = false) :
    wasmImportRewriter (a ++ dirImp q p ++ b) = a ++ dirImp q p ++ b := by
  unfold wasmImportRewriter
  rw [rewriteChunk_dirImp a b q p ha hb hq hpq]
  exact removeChunk_no_vp _ (includes_vp_false _ huu)

theorem rewriter_shape1 (a b : List Char) (q : Char) (p : List Char)
    (hai : ∀ c ∈ a, ¬ c = 'i') (hau : ∀ c ∈ a, ¬ c = '_')
    (hbq : ∀ c ∈ b, isQuoteChar c = false)
    (hbu : includesL uuLit b = false)
    (hq : isQuoteChar q = true) (hp : p ≠ [])
    (hpq : ∀ c ∈ p, isQuoteChar c = false)
    (hpu : includesL uuLit p = false) :
    wasmImportRewriter (a ++ shape1 q p ++ b) = a ++ dirImp q p ++ b := by
  unfold wasmImportRewriter
  rw [rewriteChunk_shape1 a b q p hai hbq hq hpq]
  exact removeChunk_shape1 a b q p hau hbu hq hp hpq hpu

theorem rewriter_shape2 (a b : List Char) (q : Char) (p A : List Char)
    (hai : ∀ c ∈ a, ¬ c = 'i') (hau : ∀ c ∈ a, ¬ c = '_')
    (hbq : ∀ c ∈ b, isQuoteChar c = false)
    (hbu : includesL uuLit b = false)
    (hq : isQuoteChar q = true) (hp : p ≠ [])
    (hpq : ∀ c ∈ p, isQuoteChar c = false)
    (hpu : includesL uuLit p = false)
    (hA : A ≠ []) (hap : ∀ c ∈ A, (c == ')') = false)
    (hAq : ∀ c ∈ A, isQuoteChar c = false) (hbr : '[' ∉ A)
    (hAu : includesL uuLit A = false) :
    wasmImportRewriter (a ++ shape2 q p A ++ b) = a ++ dirImp q p ++ b := by
  unfold wasmImportRewriter
  rw [rewriteChunk_shape2 a b q p A hai hbq hq hpq hAq]
  exact removeChunk_shape2 a b q p A hau hbu hq hp hpq hpu hA hap hbr hAu

/-- C6: every dynamic-import expression of a relative `pkg/` path with one or
more parent-directory segments, in any artifact context free of stray
`import` starts and quote characters, is replaced by the Rewriter with the
direct import of the absolute `/pkg/` path. -/
theorem rewriter_rewrites_relative_pkg_imports (a b : List Char) (q : Char)
    (k : Nat) (p : List Char)
    (ha : ∀ c ∈ a, ¬ c = 'i') (hb : ∀ c ∈ b, isQuoteChar c = false)
    (hq : isQuoteChar q = true) (hp : p ≠ [])
    (hpq : ∀ c ∈ p, isQuoteChar c = false)
    (huu : includesL uuLit (a ++ dirImp q p ++ b) = false) :
    wasmImportRewriter (a ++ relImp q k p ++ b) = a ++ dirImp q p ++ b :=
  rewriter_relImp a b q k p ha hb hq hp hpq huu

/-- Closed instance of `rewriter_rewrites_relative_pkg_imports`: the
specification scenario, rewriting the `wasm_astar` import with two
parent-directory segments. -/
theorem rewriter_rewrites_relative_pkg_imports_witness :
    wasmImportRewriter (relImp dqChar 1 astarPath) = dirImp dqChar astarPath := by
  have h := rewriter_rewrites_relative_pkg_imports [] [] dqChar 1 astarPath
    (by simp) (by simp) (by decide) (by decide) (by decide) (by decide)
  simpa using h

/-- C4, counterexample: a wrapper call with no trailing argument at all,
`__vitePreload(()=>import("/pkg/x"))`, is not a recognized shape: the
Rewriter leaves it unchanged and the wrapper is not removed.  The two
recognized shapes both have a trailing argument (a literal `[]`, or any
other non-empty parenthesis-free argument). -/
theorem rewriter_ignores_unargumented_wrapper :
    wasmImportRewriter (shape0 dqChar ['x']) = shape0 dqChar ['x'] ∧
    includesL vpLit (shape0 dqChar ['x']) = true ∧
    shape0 dqChar ['x'] ≠ dirImp dqChar ['x'] := by
  decide

/-- C4, amended: for the two wrapped-preload shapes the plugin actually
recognizes — the wrapper with a literal `[]` dependency-list argument and
the wrapper with any other nonempty parenthesis-free trailing argument —
the Rewriter strips the wrapper entirely, leaving the direct dynamic import
of the absolute path. -/
theorem rewriter_strips_both_wrapped_shapes (a b : List Char) (q : Char)
    (p A : List Char)
    (hai : ∀ c ∈ a, ¬ c = 'i') (hau : ∀ c ∈ a, ¬ c = '_')
    (hbq : ∀ c ∈ b, isQuoteChar c = false)
    (hbu : includesL uuLit b = false)
    (hq : isQuoteChar q = true) (hp : p ≠ [])
    (hpq : ∀ c ∈ p, isQuoteChar c = false)
    (hpu : includesL uuLit p = false)
    (hA : A ≠ []) (hap : ∀ c ∈ A, (c == ')') = false)
    (hAq : ∀ c ∈ A, isQuoteChar c = false) (hbr : '[' ∉ A)
    (hAu : includesL uuLit A = false) :
    wasmImportRewriter (a ++ shape1 q p ++ b) = a ++ dirImp q p ++ b ∧
    wasmImportRewriter (a ++ shape2 q p A ++ b) = a ++ dirImp q p ++ b :=
  ⟨rewriter_shape1 a b q p hai hau hbq hbu hq hp hpq hpu,
   rewriter_shape2 a b q p A hai hau hbq hbu hq hp hpq hpu hA hap hAq hbr hAu⟩

/-- Closed instance of `rewriter_strips_both_wrapped_shapes` at the
specification scenario `__vitePreload(()=>import("/pkg/x/x.js"),[])` and its
variant with trailing argument `a`. -/
theorem rewriter_strips_both_wrapped_shapes_witness :
    wasmImportRewriter (shape1 dqChar ['x', '/', 'x', '.', 'j', 's']) =
      dirImp dqChar ['x', '/', 'x', '.', 'j', 's'] ∧
    wasmImportRewriter (shape2 dqChar ['x', '/', 'x', '.', 'j', 's'] ['a']) =
      dirImp dqChar ['x', '/', 'x', '.', 'j', 's'] := by
  have h := rewriter_strips_both_wrapped_shapes [] [] dqChar
    ['x', '/', 'x', '.', 'j', 's'] ['a']
    (by simp) (by simp) (by simp) (by decide) (by decide) (by decide)
    (by decide) (by decide) (by decide) (by decide) (by decide) (by decide)
    (by decide)
  constructor
  · have h1 := h.1
    simpa using h1
  · have h2 := h.2
    simpa using h2

/-- C3, counterexample: the Rewriter is not idempotent.  On the artifact
`__vitePreload(()=>__vitePreload(()=>import("/pkg/x"),a),b)` — a nested
preload wrapper — one application leaves `__vitePreload(()=>import("/pkg/x"),b)`
and a second application rewrites further to `import("/pkg/x")`, so applying
it twice is not byte-identical to applying it once. -/
theorem rewriter_not_idempotent_nested :
    wasmImportRewriter (wasmImportRewriter nestedPreloadArtifact) ≠
      wasmImportRewriter nestedPreloadArtifact := by
  decide

/-- C3, amended: on artifacts consisting of a recognized import form in an
inert context — an already-absolute import, a relative import, or a
non-nested wrapped-preload call of either recognized shape — applying the
Rewriter twice yields output byte-identical to applying it once, and an
already-absolute `/pkg/` import is left untouched by a second application. -/
theorem rewriter_idempotent_unnested (a b : List Char) (q : Char) (k : Nat)
    (p A : List Char)
    (hai : ∀ c ∈ a, ¬ c = 'i') (hau : ∀ c ∈ a, ¬ c = '_')
    (hbq : ∀ c ∈ b, isQuoteChar c = false)
    (hbu : includesL uuLit b = false)
    (hq : isQuoteChar q = true) (hp : p ≠ [])
    (hpq : ∀ c ∈ p, isQuoteChar c = false)
    (hpu : includesL uuLit p = false)
    (hA : A ≠ []) (hap : ∀ c ∈ A, (c == ')') = false)
    (hAq : ∀ c ∈ A, isQuoteChar c = false) (hbr : '[' ∉ A)
    (hAu : includesL uuLit A = false)
    (huu : includesL uuLit (a ++ dirImp q p ++ b) = false) :
    wasmImportRewriter (a ++ dirImp q p ++ b) = a ++ dirImp q p ++ b ∧
    wasmImportRewriter (wasmImportRewriter (a ++ relImp q k p ++ b)) =
      wasmImportRewriter (a ++ relImp q k p ++ b) ∧
    wasmImportRewriter (wasmImportRewriter (a ++ shape1 q p ++ b)) =
      wasmImportRewriter (a ++ shape1 q p ++ b) ∧
    wasmImportRewriter (wasmImportRewriter (a ++ shape2 q p A ++ b)) =
      wasmImportRewriter (a ++ shape2 q p A ++ b) := by
  have hdir := rewriter_dirImp a b q p hai hbq hq hpq huu
  refine ⟨hdir, ?_, ?_, ?_⟩
  · rw [rewriter_relImp a b q k p hai hbq hq hp hpq huu, hdir]
  · rw [rewriter_shape1 a b q p hai hau hbq hbu hq hp hpq hpu, hdir]
  · rw [rewriter_shape2 a b q p A hai hau hbq hbu hq hp hpq hpu hA hap hAq
      hbr hAu, hdir]

/-- Closed instance of `rewriter_idempotent_unnested` at concrete artifacts
with path `x` and trailing argument `a`. -/
theorem rewriter_idempotent_unnested_witness :
    wasmImportRewriter ([] ++ dirImp dqChar ['x'] ++ []) =
      [] ++ dirImp dqChar ['x'] ++ [] ∧
    wasmImportRewriter (wasmImportRewriter ([] ++ relImp dqChar 0 ['x'] ++ [])) =
      wasmImportRewriter ([] ++ relImp dqChar 0 ['x'] ++ []) ∧
    wasmImportRewriter (wasmImportRewriter ([] ++ shape1 dqChar ['x'] ++ [])) =
      wasmImportRewriter ([] ++ shape1 dqChar ['x'] ++ []) ∧
    wasmImportRewriter (wasmImportRewriter ([] ++ shape2 dqChar ['x'] ['a'] ++ [])) =
      wasmImportRewriter ([] ++ shape2 dqChar ['x'] ['a'] ++ []) :=
  rewriter_idempotent_unnested [] [] dqChar 0 ['x'] ['a']
    (by simp) (by simp) (by simp) (by decide) (by decide) (by decide)
    (by decide) (by decide) (by decide) (by decide) (by decide) (by decide)
    (by decide) (by decide)
